import Mathlib

/-!
Verification of the fyndmark-backend moderation and publication pipeline.

The Go sources are shallowly embedded: Go strings become lists of byte
values (`Str`), SQL rows become structures, the SQL `UPDATE ... WHERE`
statements become row transformers that mirror their `SET` clauses and
`WHERE` conditions, and fallible Go functions return `Except`.  Database
connectivity errors (failed `Exec` calls) are environment failures outside
the model: the embedded store operations always apply their update.
-/

namespace Fyndmark

/-- Go strings modelled as lists of byte values (each < 256). -/
abbrev Str := List Nat

/-- Bytes of an ASCII string literal. -/
def strBytes (s : String) : Str := s.data.map (fun c => c.toNat)

/-! ## Pipeline run rows (src/pkg/db/db.go)

A row of the `pipeline_runs` table, with the columns touched by the
`MarkRun*` operations.  Timestamps are unix seconds (`nowUnix`). -/

structure RunRow where
  state : Str
  step : Option Str
  errorMessage : Option Str
  createdAt : Nat
  startedAt : Option Nat
  finishedAt : Option Nat
deriving DecidableEq

/-- The state constants of src/pkg/db/db.go. -/
def runQueued : Str := strBytes "queued"

def runRunning : Str := strBytes "running"

def runSuccess : Str := strBytes "success"

def runFailed : Str := strBytes "failed"

/-- CreateRun inserts a new pipeline run with state=queued (db.go). -/
def newRunRow (now : Nat) : RunRow :=
  { state := runQueued, step := none, errorMessage := none,
    createdAt := now, startedAt := none, finishedAt := none }

/-- MarkRunRunning: SET state=running, started_at=now, step=NULL, error_message=NULL. -/
def markRunRunning (now : Nat) (r : RunRow) : RunRow :=
  { r with state := runRunning, startedAt := some now, step := none, errorMessage := none }

/-- MarkRunStep: SET step=s. -/
def markRunStep (s : Str) (r : RunRow) : RunRow :=
  { r with step := some s }

/-- MarkRunSuccess: SET state=success, finished_at=now, step=NULL. -/
def markRunSuccess (now : Nat) (r : RunRow) : RunRow :=
  { r with state := runSuccess, finishedAt := some now, step := none }

/-- MarkRunFailed: SET state=failed, finished_at=now, step=s, error_message=msg. -/
def markRunFailed (now : Nat) (s msg : Str) (r : RunRow) : RunRow :=
  { r with state := runFailed, finishedAt := some now, step := some s,
           errorMessage := some msg }

/-! ## The step sequence of Runner.runWithID (src/unnamed/part_019, pipeline package) -/

/-- Step name constants of the pipeline package. -/
def stepCheckout : Str := strBytes "checkout"

def stepGenerate : Str := strBytes "generate"

def stepHugo : Str := strBytes "hugo"

def stepCommit : Str := strBytes "commit"

def stepPush : Str := strBytes "push"

def stepEnqueue : Str := strBytes "enqueue"

def stepPipeline : Str := strBytes "pipeline"

/-- Outcomes of the five external commands invoked by one run, plus the
site configuration bit `Hugo.Disabled` that decides whether the hugo step
runs at all. -/
structure StepOutcomes where
  checkout : Except Str Unit
  generate : Except Str Unit
  hugo : Except Str Unit
  commit : Except Str Unit
  push : Except Str Unit
  hugoDisabled : Bool

/-- The error wrapping of the local `fail` closure in runWithID:
fmt.Errorf with the step name, a colon and the wrapped error. -/
def failErr (step e : Str) : Str := step ++ strBytes ": " ++ e

/-- Runner.runWithID (part_019 lines 71-132): MarkRunRunning, then for each
step MarkRunStep before execution and on error MarkRunFailed with that
step and stop; MarkRunSuccess when all steps succeed.  The hugo step is
skipped when the site disables hugo. -/
def runWithID (now : Nat) (o : StepOutcomes) (r : RunRow) : RunRow × Except Str Unit :=
  let r1 := markRunRunning now r
  let r2 := markRunStep stepCheckout r1
  match o.checkout with
  | .error e => (markRunFailed now stepCheckout e r2, .error (failErr stepCheckout e))
  | .ok _ =>
    let r3 := markRunStep stepGenerate r2
    match o.generate with
    | .error e => (markRunFailed now stepGenerate e r3, .error (failErr stepGenerate e))
    | .ok _ =>
      let r4 :=
        if o.hugoDisabled then r3 else markRunStep stepHugo r3
      match (if o.hugoDisabled then Except.ok () else o.hugo) with
      | .error e => (markRunFailed now stepHugo e r4, .error (failErr stepHugo e))
      | .ok _ =>
        let r5 := markRunStep stepCommit r4
        match o.commit with
        | .error e => (markRunFailed now stepCommit e r5, .error (failErr stepCommit e))
        | .ok _ =>
          let r6 := markRunStep stepPush r5
          match o.push with
          | .error e => (markRunFailed now stepPush e r6, .error (failErr stepPush e))
          | .ok _ => (markRunSuccess now r6, .ok ())

/-- Worker.runOne (part_019 lines 349-362): drive the run with
Runner.RunExisting (which is runWithID) and, when it returns an error,
call MarkRunFailed with step "pipeline" and message "run failed: " plus
the error text. -/
def runOne (now : Nat) (o : StepOutcomes) (r : RunRow) : RunRow :=
  match runWithID now o r with
  | (r2, .ok _) => r2
  | (r2, .error e) => markRunFailed now stepPipeline (strBytes "run failed: " ++ e) r2

/-- Specification helper: the first failing stage of a run in runWithID
order (checkout, generate, hugo when enabled, commit, push), with its
error message. -/
def firstFailingStep (o : StepOutcomes) : Option (Str × Str) :=
  match o.checkout with
  | .error e => some (stepCheckout, e)
  | .ok _ =>
    match o.generate with
    | .error e => some (stepGenerate, e)
    | .ok _ =>
      match (if o.hugoDisabled then Except.ok () else o.hugo) with
      | .error e => some (stepHugo, e)
      | .ok _ =>
        match o.commit with
        | .error e => some (stepCommit, e)
        | .ok _ =>
          match o.push with
          | .error e => some (stepPush, e)
          | .ok _ => none

end Fyndmark

namespace Fyndmark

/-- A concrete run whose checkout step fails, executed by the worker. -/
def c1Outcomes : StepOutcomes :=
  { checkout := .error (strBytes "boom"), generate := .ok (), hugo := .ok (),
    commit := .ok (), push := .ok (), hugoDisabled := false }

/-- C1 counterexample: a worker-driven run whose checkout stage fails ends
with state failed but with step "pipeline", not "checkout": the second
MarkRunFailed issued by Worker.runOne overwrites the step recorded by
runWithID, so the final step column does not identify the failing stage. -/
theorem c1_step_overwritten_by_worker :
    (runOne 5 c1Outcomes (newRunRow 1)).state = runFailed ∧
    (runOne 5 c1Outcomes (newRunRow 1)).step = some stepPipeline ∧
    (runOne 5 c1Outcomes (newRunRow 1)).step ≠ some stepCheckout := by
  decide

/-- C1 amended: when a step of runWithID fails, runWithID itself leaves the
run failed with the step column naming the failing stage and the error
message stored verbatim; but a worker-driven run (Worker.runOne) then
overwrites the step with "pipeline", keeping the failing stage only as a
prefix of the stored error message ("run failed: step: msg"). -/
theorem c1_failed_run_step_attribution (now : Nat) (o : StepOutcomes) (r : RunRow)
    (s m : Str) (h : firstFailingStep o = some (s, m)) :
    (runWithID now o r).1.state = runFailed ∧
    (runWithID now o r).1.step = some s ∧
    (runWithID now o r).1.errorMessage = some m ∧
    (runOne now o r).state = runFailed ∧
    (runOne now o r).step = some stepPipeline ∧
    (runOne now o r).errorMessage =
      some (strBytes "run failed: " ++ s ++ strBytes ": " ++ m) := by
  obtain ⟨c, g, hu, co, pu, hd⟩ := o
  cases c with
  | error e =>
    obtain ⟨rfl, rfl⟩ : stepCheckout = s ∧ e = m := by
      have h2 : (some (stepCheckout, e) : Option (Str × Str)) = some (s, m) := h
      simpa using h2
    exact ⟨rfl, rfl, rfl, rfl, rfl, rfl⟩
  | ok u =>
    cases g with
    | error e =>
      obtain ⟨rfl, rfl⟩ : stepGenerate = s ∧ e = m := by
        have h2 : (some (stepGenerate, e) : Option (Str × Str)) = some (s, m) := h
        simpa using h2
      exact ⟨rfl, rfl, rfl, rfl, rfl, rfl⟩
    | ok u =>
      cases hd with
      | true =>
        cases co with
        | error e =>
          obtain ⟨rfl, rfl⟩ : stepCommit = s ∧ e = m := by
            have h2 : (some (stepCommit, e) : Option (Str × Str)) = some (s, m) := h
            simpa using h2
          exact ⟨rfl, rfl, rfl, rfl, rfl, rfl⟩
        | ok u =>
          cases pu with
          | error e =>
            obtain ⟨rfl, rfl⟩ : stepPush = s ∧ e = m := by
              have h2 : (some (stepPush, e) : Option (Str × Str)) = some (s, m) := h
              simpa using h2
            exact ⟨rfl, rfl, rfl, rfl, rfl, rfl⟩
          | ok u =>
            have h2 : (none : Option (Str × Str)) = some (s, m) := h
            exact Option.noConfusion h2
      | false =>
        cases hu with
        | error e =>
          obtain ⟨rfl, rfl⟩ : stepHugo = s ∧ e = m := by
            have h2 : (some (stepHugo, e) : Option (Str × Str)) = some (s, m) := h
            simpa using h2
          exact ⟨rfl, rfl, rfl, rfl, rfl, rfl⟩
        | ok u =>
          cases co with
          | error e =>
            obtain ⟨rfl, rfl⟩ : stepCommit = s ∧ e = m := by
              have h2 : (some (stepCommit, e) : Option (Str × Str)) = some (s, m) := h
              simpa using h2
            exact ⟨rfl, rfl, rfl, rfl, rfl, rfl⟩
          | ok u =>
            cases pu with
            | error e =>
              obtain ⟨rfl, rfl⟩ : stepPush = s ∧ e = m := by
                have h2 : (some (stepPush, e) : Option (Str × Str)) = some (s, m) := h
                simpa using h2
              exact ⟨rfl, rfl, rfl, rfl, rfl, rfl⟩
            | ok u =>
              have h2 : (none : Option (Str × Str)) = some (s, m) := h
              exact Option.noConfusion h2

/-- Witness for the amended C1 theorem at a concrete failing generate step. -/
theorem c1_failed_run_step_attribution_witness :
    firstFailingStep
      { checkout := .ok (), generate := .error (strBytes "gen broke"), hugo := .ok (),
        commit := .ok (), push := .ok (), hugoDisabled := true } =
      some (stepGenerate, strBytes "gen broke") ∧
    (runOne 9
      { checkout := .ok (), generate := .error (strBytes "gen broke"), hugo := .ok (),
        commit := .ok (), push := .ok (), hugoDisabled := true }
      (newRunRow 2)).step = some stepPipeline := by
  refine ⟨by decide, ?_⟩
  exact (c1_failed_run_step_attribution 9
    { checkout := .ok (), generate := .error (strBytes "gen broke"), hugo := .ok (),
      commit := .ok (), push := .ok (), hugoDisabled := true }
    (newRunRow 2) stepGenerate (strBytes "gen broke") (by decide)).2.2.2.2.1

end Fyndmark

namespace Fyndmark

/-! ## Byte-string utilities shared by the token code (Go standard library
semantics, modelled over byte lists) -/

/-- strings.Split: split on every occurrence of the separator byte; the
result always has one more element than there are separators. -/
def splitOnByte (sep : Nat) : List Nat → List (List Nat)
  | [] => [[]]
  | c :: rest =>
    if c = sep then [] :: splitOnByte sep rest
    else
      match splitOnByte sep rest with
      | [] => [[c]]
      | g :: gs => (c :: g) :: gs

/-- Little-endian decimal digits of n, with fuel (fuel at least n). -/
def natDigitsRevAux : Nat → Nat → List Nat
  | 0, _ => []
  | _ + 1, 0 => []
  | fuel + 1, n => n % 10 :: natDigitsRevAux fuel (n / 10)

/-- fmt %d of a non-negative integer: its decimal digit bytes. -/
def natToDecBytes (n : Nat) : Str :=
  if n = 0 then [48] else ((natDigitsRevAux n n).map (fun d => d + 48)).reverse

/-- Digit parsing of strconv.ParseInt after sign handling: all bytes must
be decimal digits and the accumulated value must fit the signed 64-bit
range; errors are returned as none. -/
def parseGoInt64Core (neg : Bool) (digits : Str) : Option Int :=
  if digits = [] then none
  else if digits.all (fun d => decide (48 ≤ d ∧ d ≤ 57)) then
    let v : Nat := digits.foldl (fun a d => a * 10 + (d - 48)) 0
    if neg then
      if v ≤ 2 ^ 63 then some (-(v : Int)) else none
    else
      if v ≤ 2 ^ 63 - 1 then some (v : Int) else none
  else none

/-- strconv.ParseInt(s, 10, 64): optional leading sign, then decimal
digits with a 64-bit range check. -/
def parseGoInt64 : Str → Option Int
  | [] => none
  | c :: rest =>
    if c = 45 then parseGoInt64Core true rest
    else if c = 43 then parseGoInt64Core false rest
    else parseGoInt64Core false (c :: rest)

/-! ## base64.RawURLEncoding (encoding/base64)

The URL-safe alphabet without padding.  Decoding follows the default
(non-Strict) Go decoder: carriage returns and newlines are skipped, any
other byte outside the alphabet is an error, an encoding whose length is
1 mod 4 is an error, and the unused trailing bits of a final partial
quantum are discarded without being checked. -/

/-- The URL-safe base64 alphabet: value 0-63 to character byte. -/
def b64Char (v : Nat) : Nat :=
  if v < 26 then 65 + v
  else if v < 52 then 97 + (v - 26)
  else if v < 62 then 48 + (v - 52)
  else if v = 62 then 45
  else 95

/-- Inverse alphabet lookup: character byte to 6-bit value. -/
def b64DecVal (c : Nat) : Option Nat :=
  if 65 ≤ c ∧ c ≤ 90 then some (c - 65)
  else if 97 ≤ c ∧ c ≤ 122 then some (c - 71)
  else if 48 ≤ c ∧ c ≤ 57 then some (c + 4)
  else if c = 45 then some 62
  else if c = 95 then some 63
  else none

/-- The 6-bit group values of the encoding of a byte list: full 3-byte
groups give four values, a 1-byte remainder two, a 2-byte remainder
three (with zero trailing bits in the last value). -/
def b64Groups : List Nat → List Nat
  | [] => []
  | [b0] => [b0 / 4, b0 % 4 * 16]
  | [b0, b1] => [b0 / 4, b0 % 4 * 16 + b1 / 16, b1 % 16 * 4]
  | b0 :: b1 :: b2 :: rest =>
    b0 / 4 :: (b0 % 4 * 16 + b1 / 16) :: (b1 % 16 * 4 + b2 / 64) :: b2 % 64 ::
      b64Groups rest

/-- RawURLEncoding.EncodeToString over byte lists. -/
def b64Encode (bs : List Nat) : Str := (b64Groups bs).map b64Char

/-- Reassemble bytes from 6-bit values, one quantum (up to four values) at
a time; a single trailing value is corrupt; unused trailing bits of the
final values are discarded (the non-Strict Go decoder does not check
them). -/
def b64Quanta : List Nat → Option (List Nat)
  | [] => some []
  | [_] => none
  | [v0, v1] => some [v0 * 4 + v1 / 16]
  | [v0, v1, v2] => some [v0 * 4 + v1 / 16, v1 % 16 * 16 + v2 / 4]
  | v0 :: v1 :: v2 :: v3 :: rest =>
    (b64Quanta rest).map
      (fun bs => (v0 * 4 + v1 / 16) :: (v1 % 16 * 16 + v2 / 4) :: (v2 % 4 * 64 + v3) :: bs)

/-- RawURLEncoding.DecodeString over byte lists (default decoder): skip
newline bytes, translate through the alphabet, reassemble quanta. -/
def b64Decode (s : Str) : Option (List Nat) :=
  match (s.filter (fun c => !(c == 10 || c == 13))).mapM b64DecVal with
  | none => none
  | some vals => b64Quanta vals

end Fyndmark

namespace Fyndmark

/-! ## SHA-256 (crypto/sha256) and HMAC (crypto/hmac)

Machine words are Nat values below 2^32; every arithmetic step reduces
modulo 2^32 explicitly. -/

/-- Reduce to a 32-bit word. -/
def w32 (n : Nat) : Nat := n % 4294967296

/-- 32-bit addition. -/
def add32 (a b : Nat) : Nat := w32 (a + b)

/-- Right rotation of a 32-bit word by n bits. -/
def rotr32 (n x : Nat) : Nat := w32 (x / 2 ^ n + x % 2 ^ n * 2 ^ (32 - n))

/-- Right shift of a 32-bit word. -/
def shr32 (n x : Nat) : Nat := x / 2 ^ n

/-- Bitwise complement of a 32-bit word. -/
def not32 (x : Nat) : Nat := Nat.xor x 4294967295

/-- The SHA-256 round constants. -/
def sha256K : List Nat :=
  [1116352408, 1899447441, 3049323471, 3921009573, 961987163, 1508970993,
   2453635748, 2870763221, 3624381080, 310598401, 607225278, 1426881987,
   1925078388, 2162078206, 2614888103, 3248222580, 3835390401, 4022224774,
   264347078, 604807628, 770255983, 1249150122, 1555081692, 1996064986,
   2554220882, 2821834349, 2952996808, 3210313671, 3336571891, 3584528711,
   113926993, 338241895, 666307205, 773529912, 1294757372, 1396182291,
   1695183700, 1986661051, 2177026350, 2456956037, 2730485921, 2820302411,
   3259730800, 3345764771, 3516065817, 3600352804, 4094571909, 275423344,
   430227734, 506948616, 659060556, 883997877, 958139571, 1322822218,
   1537002063, 1747873779, 1955562222, 2024104815, 2227730452, 2361852424,
   2428436474, 2756734187, 3204031479, 3329325298]

/-- The SHA-256 initial hash state. -/
def sha256H0 : List Nat :=
  [1779033703, 3144134277, 1013904242, 2773480762,
   1359893119, 2600822924, 528734635, 1541459225]

/-- Big-endian bytes of a 64-bit value. -/
def be64 (n : Nat) : List Nat :=
  [n / 2 ^ 56 % 256, n / 2 ^ 48 % 256, n / 2 ^ 40 % 256, n / 2 ^ 32 % 256,
   n / 2 ^ 24 % 256, n / 2 ^ 16 % 256, n / 2 ^ 8 % 256, n % 256]

/-- Big-endian bytes of a 32-bit word. -/
def be32 (w : Nat) : List Nat :=
  [w / 2 ^ 24 % 256, w / 2 ^ 16 % 256, w / 2 ^ 8 % 256, w % 256]

/-- SHA-256 padding: a byte of value 128, zero bytes to 56 mod 64, then the
message bit length as 64-bit big-endian. -/
def sha256Pad (msg : List Nat) : List Nat :=
  msg ++ [128] ++ List.replicate ((119 - msg.length % 64) % 64) 0 ++ be64 (8 * msg.length)

/-- The first 16 message-schedule words of a 64-byte block (big-endian). -/
def blockWords : List Nat → List Nat
  | b0 :: b1 :: b2 :: b3 :: rest =>
    (b0 * 16777216 + b1 * 65536 + b2 * 256 + b3) :: blockWords rest
  | _ => []

/-- Extend the message schedule by the given number of words. -/
def extendWords : Nat → List Nat → List Nat
  | 0, ws => ws
  | n + 1, ws =>
    let i := ws.length
    let w15 := ws.getD (i - 15) 0
    let w2 := ws.getD (i - 2) 0
    let s0 := Nat.xor (Nat.xor (rotr32 7 w15) (rotr32 18 w15)) (shr32 3 w15)
    let s1 := Nat.xor (Nat.xor (rotr32 17 w2) (rotr32 19 w2)) (shr32 10 w2)
    extendWords n (ws ++ [add32 (add32 (ws.getD (i - 16) 0) s0) (add32 (ws.getD (i - 7) 0) s1)])

/-- One SHA-256 compression round: state [a,b,c,d,e,f,g,h] with round key
k and schedule word w. -/
def sha256Round (st : List Nat) (kw : Nat × Nat) : List Nat :=
  let a := st.getD 0 0
  let b := st.getD 1 0
  let c := st.getD 2 0
  let d := st.getD 3 0
  let e := st.getD 4 0
  let f := st.getD 5 0
  let g := st.getD 6 0
  let h := st.getD 7 0
  let s1 := Nat.xor (Nat.xor (rotr32 6 e) (rotr32 11 e)) (rotr32 25 e)
  let ch := Nat.xor (Nat.land e f) (Nat.land (not32 e) g)
  let temp1 := add32 (add32 (add32 h s1) (add32 ch kw.1)) kw.2
  let s0 := Nat.xor (Nat.xor (rotr32 2 a) (rotr32 13 a)) (rotr32 22 a)
  let maj := Nat.xor (Nat.xor (Nat.land a b) (Nat.land a c)) (Nat.land b c)
  let temp2 := add32 s0 maj
  [add32 temp1 temp2, a, b, c, add32 d temp1, e, f, g]

/-- Compress one 64-byte block into the running hash state. -/
def sha256Block (h : List Nat) (block : List Nat) : List Nat :=
  let ws := extendWords 48 (blockWords block)
  let st := (sha256K.zip ws).foldl sha256Round h
  (h.zip st).map (fun p => add32 p.1 p.2)

/-- Fold the compression over all 64-byte blocks (fuel bounds the number
of blocks). -/
def sha256Blocks : Nat → List Nat → List Nat → List Nat
  | 0, h, _ => h
  | _ + 1, h, [] => h
  | fuel + 1, h, msg => sha256Blocks fuel (sha256Block h (msg.take 64)) (msg.drop 64)

/-- SHA-256 digest (32 bytes) of a byte list. -/
def sha256 (msg : List Nat) : List Nat :=
  let p := sha256Pad msg
  ((sha256Blocks p.length sha256H0 p).map be32).flatten

/-- HMAC-SHA256 (crypto/hmac with crypto/sha256, block size 64). -/
def hmacSHA256 (key msg : List Nat) : List Nat :=
  let k0 := if 64 < key.length then sha256 key else key
  let k1 := k0 ++ List.replicate (64 - k0.length) 0
  let ipad := k1.map (fun b => Nat.xor b 54)
  let opad := k1.map (fun b => Nat.xor b 92)
  sha256 (opad ++ sha256 (ipad ++ msg))

set_option maxRecDepth 40000 in
/-- SHA-256 of the empty message is the well-known digest; this pins the
embedding to the real function. -/
theorem sha256_empty_test_vector :
    sha256 [] =
      [227, 176, 196, 66, 152, 252, 28, 20, 154, 251, 244, 200,
       153, 111, 185, 36, 39, 174, 65, 228, 100, 155, 147, 76,
       164, 149, 153, 27, 120, 82, 184, 85] := by
  decide

end Fyndmark

namespace Fyndmark

set_option maxRecDepth 80000 in
/-- HMAC-SHA256 matches RFC 4231 test case 2 (key "Jefe"); this pins the
embedding to the real function. -/
theorem hmac_sha256_rfc4231_test_vector :
    hmacSHA256 (strBytes "Jefe") (strBytes "what do ya want for nothing?") =
      [91, 220, 193, 70, 191, 96, 117, 78, 106, 4, 36, 38,
       8, 149, 117, 199, 90, 0, 63, 8, 157, 39, 57, 131,
       157, 236, 88, 185, 100, 236, 56, 67] := by
  decide

end Fyndmark

namespace Fyndmark

/-! ## Decision tokens (src/unnamed/part_005)

signToken (lines 349-357) and the token-verification portion of
CommentsController.GetDecision (lines 456-536). -/

/-- Decidable equality for Except values, used to evaluate concrete
verification outcomes. -/
instance {ε α : Type} [DecidableEq ε] [DecidableEq α] : DecidableEq (Except ε α) := fun x y =>
  match x, y with
  | .ok a, .ok b =>
    if h : a = b then .isTrue (by rw [h]) else .isFalse (by intro hh; cases hh; exact h rfl)
  | .error a, .error b =>
    if h : a = b then .isTrue (by rw [h]) else .isFalse (by intro hh; cases hh; exact h rfl)
  | .ok _, .error _ => .isFalse (by intro hh; cases hh)
  | .error _, .ok _ => .isFalse (by intro hh; cases hh)

/-- The payload signed into a decision link (PostComment lines 289-290):
fmt.Sprintf with site key, comment id, action and unix expiry joined by
pipe characters (byte 124). -/
def decisionPayload (siteKey commentID action : Str) (exp : Nat) : Str :=
  siteKey ++ [124] ++ commentID ++ [124] ++ action ++ [124] ++ natToDecBytes exp

/-- signToken: base64url(payload) "." base64url(HMAC-SHA256(secret, payload)).
The dot is byte 46. -/
def signToken (payload secret : Str) : Str :=
  b64Encode payload ++ [46] ++ b64Encode (hmacSHA256 secret payload)

/-- The distinct rejection outcomes of GetDecision's token handling, one
per early-return response of the handler. -/
inductive VerifyErr where
  | missingToken
  | badFormat
  | badPayloadEncoding
  | badSigEncoding
  | badSignature
  | badFieldCount
  | siteMismatch
  | badExpiry
deriving DecidableEq

/-- Lines 503-530 of part_005: require the site field of the payload to
equal the site key of the URL, then parse the expiry field with
strconv.ParseInt. -/
def verifySiteExp (siteKey tokenSiteID commentID action expStr : Str) :
    Except VerifyErr (Str × Str × Int) :=
  if tokenSiteID = siteKey then
    match parseGoInt64 expStr with
    | some exp => .ok (commentID, action, exp)
    | none => .error .badExpiry
  else .error .siteMismatch

/-- Lines 497-511: split the payload on pipes into exactly four fields. -/
def verifyPayloadFields (siteKey payload : Str) : Except VerifyErr (Str × Str × Int) :=
  match splitOnByte 124 payload with
  | [tokenSiteID, commentID, action, expStr] =>
    verifySiteExp siteKey tokenSiteID commentID action expStr
  | _ => .error .badFieldCount

/-- Lines 487-494: hmac.Equal of the decoded signature with the freshly
computed HMAC of the payload (byte-list comparison). -/
def verifySig (siteKey secret payload sigB : Str) : Except VerifyErr (Str × Str × Int) :=
  if sigB = hmacSHA256 secret payload then verifyPayloadFields siteKey payload
  else .error .badSignature

/-- Lines 474-483: base64url-decode the payload and signature parts. -/
def verifyParts (siteKey secret p sgn : Str) : Except VerifyErr (Str × Str × Int) :=
  match b64Decode p with
  | none => .error .badPayloadEncoding
  | some payload =>
    match b64Decode sgn with
    | none => .error .badSigEncoding
    | some sigB => verifySig siteKey secret payload sigB

/-- The token-verification portion of GetDecision (part_005 lines 456-530,
written as a composition that follows the handler's sections): split the
token on the dot, base64url-decode both parts, check the HMAC of the
payload against the decoded signature, split the payload on pipes into
exactly four fields, require the first field to equal the site key of
the URL, and parse the expiry field.  On success it yields the comment
id, the action and the expiry, exactly the data the handler goes on to
act upon.  The surrounding handler steps (site-config lookup, the
persistence lookup interleaved before expiry parsing, and the clock
comparison now > exp) are modelled separately in the full handler
below. -/
def verifyDecisionToken (siteKey secret token : Str) : Except VerifyErr (Str × Str × Int) :=
  if token = [] then .error .missingToken
  else
    match splitOnByte 46 token with
    | [p, sgn] => verifyParts siteKey secret p sgn
    | _ => .error .badFormat

end Fyndmark

namespace Fyndmark

/-! ## Properties of the base64 and decimal embeddings -/

/-- Every alphabet character is a dash, an underscore, a digit, an upper
case letter or a lower case letter. -/
theorem b64Char_range (v : Nat) :
    b64Char v = 45 ∨ b64Char v = 95 ∨ (48 ≤ b64Char v ∧ b64Char v ≤ 57) ∨
      (65 ≤ b64Char v ∧ b64Char v ≤ 90) ∨ (97 ≤ b64Char v ∧ b64Char v ≤ 122) := by
  unfold b64Char
  repeat' split
  all_goals omega

/-- Alphabet lookup inverts the alphabet on 6-bit values. -/
theorem b64DecVal_b64Char : ∀ v < 64, b64DecVal (b64Char v) = some v := by
  decide

/-- The 6-bit groups of a byte list are below 64. -/
theorem b64Groups_lt (bs : List Nat) (h : ∀ b ∈ bs, b < 256) :
    ∀ v ∈ b64Groups bs, v < 64 := by
  induction bs using b64Groups.induct with
  | case1 => simp [b64Groups]
  | case2 b0 =>
    simp only [b64Groups, List.mem_cons, List.not_mem_nil, or_false]
    have hb0 : b0 < 256 := h b0 (by simp)
    rintro v (rfl | rfl) <;> omega
  | case3 b0 b1 =>
    simp only [b64Groups, List.mem_cons, List.not_mem_nil, or_false]
    have hb0 : b0 < 256 := h b0 (by simp)
    have hb1 : b1 < 256 := h b1 (by simp)
    rintro v (rfl | rfl | rfl) <;> omega
  | case4 b0 b1 b2 rest ih =>
    simp only [b64Groups, List.mem_cons]
    have hb0 : b0 < 256 := h b0 (by simp)
    have hb1 : b1 < 256 := h b1 (by simp)
    have hb2 : b2 < 256 := h b2 (by simp)
    have ih2 := ih (fun b hb => h b (by simp [hb]))
    rintro v (rfl | rfl | rfl | rfl | hv)
    · omega
    · omega
    · omega
    · omega
    · exact ih2 v hv

/-- Encoded output never contains newline bytes, so the skipping filter of
the decoder leaves it unchanged. -/
theorem b64Encode_filter (bs : List Nat) :
    (b64Encode bs).filter (fun c => !(c == 10 || c == 13)) = b64Encode bs := by
  apply List.filter_eq_self.mpr
  intro c hc
  simp only [b64Encode, List.mem_map] at hc
  obtain ⟨v, _, rfl⟩ := hc
  have := b64Char_range v
  have h10 : b64Char v ≠ 10 := by omega
  have h13 : b64Char v ≠ 13 := by omega
  simp [h10, h13]

/-- Encoded output never contains the dot byte. -/
theorem b64Encode_no_dot (bs : List Nat) : 46 ∉ b64Encode bs := by
  intro hc
  simp only [b64Encode, List.mem_map] at hc
  obtain ⟨v, _, hv⟩ := hc
  have := b64Char_range v
  omega

/-- Alphabet translation of an encoded group list succeeds and recovers
the groups. -/
theorem mapM_b64DecVal (gs : List Nat) (h : ∀ v ∈ gs, v < 64) :
    (gs.map b64Char).mapM b64DecVal = some gs := by
  induction gs with
  | nil => rfl
  | cons v vs ih =>
    simp only [List.map_cons, List.mapM_cons]
    rw [b64DecVal_b64Char v (h v (by simp)), ih (fun u hu => h u (by simp [hu]))]
    rfl

/-- Quantum reassembly inverts grouping on byte lists. -/
theorem b64Quanta_b64Groups (bs : List Nat) (h : ∀ b ∈ bs, b < 256) :
    b64Quanta (b64Groups bs) = some bs := by
  induction bs using b64Groups.induct with
  | case1 => rfl
  | case2 b0 =>
    have hb0 : b0 < 256 := h b0 (by simp)
    show some [b0 / 4 * 4 + b0 % 4 * 16 / 16] = some [b0]
    have e : b0 / 4 * 4 + b0 % 4 * 16 / 16 = b0 := by omega
    rw [e]
  | case3 b0 b1 =>
    have hb0 : b0 < 256 := h b0 (by simp)
    have hb1 : b1 < 256 := h b1 (by simp)
    show some [b0 / 4 * 4 + (b0 % 4 * 16 + b1 / 16) / 16,
               (b0 % 4 * 16 + b1 / 16) % 16 * 16 + b1 % 16 * 4 / 4] = some [b0, b1]
    have e0 : b0 / 4 * 4 + (b0 % 4 * 16 + b1 / 16) / 16 = b0 := by omega
    have e1 : (b0 % 4 * 16 + b1 / 16) % 16 * 16 + b1 % 16 * 4 / 4 = b1 := by omega
    rw [e0, e1]
  | case4 b0 b1 b2 rest ih =>
    have hb0 : b0 < 256 := h b0 (by simp)
    have hb1 : b1 < 256 := h b1 (by simp)
    have hb2 : b2 < 256 := h b2 (by simp)
    have ih2 := ih (fun b hb => h b (by simp [hb]))
    show (b64Quanta (b64Groups rest)).map _ = _
    rw [ih2]
    simp only [Option.map_some']
    have e0 : b0 / 4 * 4 + (b0 % 4 * 16 + b1 / 16) / 16 = b0 := by omega
    have e1 : (b0 % 4 * 16 + b1 / 16) % 16 * 16 + (b1 % 16 * 4 + b2 / 64) / 4 = b1 := by omega
    have e2 : (b1 % 16 * 4 + b2 / 64) % 4 * 64 + b2 % 64 = b2 := by omega
    rw [e0, e1, e2]

/-- Decoding inverts encoding on byte lists (round trip through the
canonical encoding). -/
theorem b64Decode_b64Encode (bs : List Nat) (h : ∀ b ∈ bs, b < 256) :
    b64Decode (b64Encode bs) = some bs := by
  have h1 : (b64Encode bs).mapM b64DecVal = some (b64Groups bs) :=
    mapM_b64DecVal (b64Groups bs) (b64Groups_lt bs h)
  unfold b64Decode
  rw [b64Encode_filter, h1]
  exact b64Quanta_b64Groups bs h

end Fyndmark

namespace Fyndmark

/-! ## Splitting and decimal lemmas -/

/-- Splitting at the first separator occurrence peels off the leading
separator-free segment. -/
theorem splitOnByte_append (sep : Nat) (a rest : List Nat) (h : sep ∉ a) :
    splitOnByte sep (a ++ sep :: rest) = a :: splitOnByte sep rest := by
  induction a with
  | nil => simp [splitOnByte]
  | cons c cs ih =>
    simp only [List.mem_cons, not_or] at h
    have ih2 : splitOnByte sep (cs.append (sep :: rest)) = cs :: splitOnByte sep rest := ih h.2
    show splitOnByte sep (c :: (cs ++ sep :: rest)) = (c :: cs) :: splitOnByte sep rest
    conv_lhs => rw [splitOnByte]
    rw [if_neg (fun hc => h.1 hc.symm)]
    rw [show splitOnByte sep (cs ++ sep :: rest) = cs :: splitOnByte sep rest from ih2]

/-- Splitting a separator-free list yields that list alone. -/
theorem splitOnByte_no_sep (sep : Nat) (a : List Nat) (h : sep ∉ a) :
    splitOnByte sep a = [a] := by
  induction a with
  | nil => rfl
  | cons c cs ih =>
    simp only [List.mem_cons, not_or] at h
    conv_lhs => rw [splitOnByte]
    rw [if_neg (fun hc => h.1 hc.symm), ih h.2]

/-- The decimal digits produced by the fuelled digit extractor are below
ten. -/
theorem natDigitsRevAux_lt10 (fuel n : Nat) : ∀ d ∈ natDigitsRevAux fuel n, d < 10 := by
  induction fuel generalizing n with
  | zero => simp [natDigitsRevAux]
  | succ fuel ih =>
    cases n with
    | zero => simp [natDigitsRevAux]
    | succ m =>
      simp only [natDigitsRevAux, List.mem_cons]
      rintro d (rfl | hd)
      · omega
      · exact ih _ d hd

/-- Every byte of a rendered decimal number is an ASCII digit. -/
theorem natToDecBytes_digits (n : Nat) : ∀ d ∈ natToDecBytes n, 48 ≤ d ∧ d ≤ 57 := by
  unfold natToDecBytes
  split
  · simp
  · intro d hd
    simp only [List.mem_reverse, List.mem_map] at hd
    obtain ⟨v, hv, rfl⟩ := hd
    have := natDigitsRevAux_lt10 n n v hv
    omega

/-- A rendered decimal number is never the empty byte list. -/
theorem natToDecBytes_ne_nil (n : Nat) : natToDecBytes n ≠ [] := by
  unfold natToDecBytes
  split
  · simp
  · intro hc
    simp only [List.reverse_eq_nil_iff, List.map_eq_nil_iff] at hc
    revert hc
    cases n with
    | zero => omega
    | succ m => exact fun hc => by simp [natDigitsRevAux] at hc

/-- The fuelled digit extractor is correct: folding the digits back in
little-endian order recovers the number, whenever the fuel suffices. -/
theorem natDigitsRevAux_foldr (fuel n : Nat) (h : n ≤ fuel) :
    (natDigitsRevAux fuel n).foldr (fun d acc => acc * 10 + d) 0 = n := by
  induction fuel generalizing n with
  | zero =>
    have : n = 0 := by omega
    subst this
    rfl
  | succ fuel ih =>
    cases n with
    | zero => rfl
    | succ m =>
      simp only [natDigitsRevAux, List.foldr_cons]
      rw [ih ((m + 1) / 10) (by omega)]
      omega

/-- Folding the rendered decimal bytes through the accumulator of
parseGoInt64 recovers the number. -/
theorem natToDecBytes_foldl (n : Nat) :
    (natToDecBytes n).foldl (fun a d => a * 10 + (d - 48)) 0 = n := by
  rcases Nat.eq_zero_or_pos n with rfl | hpos
  · rfl
  · unfold natToDecBytes
    rw [if_neg (by omega), List.foldl_reverse, List.foldr_map]
    have e : (fun (d : Nat) (acc : Nat) => acc * 10 + (d + 48 - 48)) =
        (fun (d : Nat) (acc : Nat) => acc * 10 + d) := by
      funext d acc
      omega
    rw [e, natDigitsRevAux_foldr n n (le_refl n)]

/-- strconv.ParseInt on a rendered 63-bit decimal returns the number. -/
theorem parseGoInt64_natToDecBytes (n : Nat) (h : n < 2 ^ 63) :
    parseGoInt64 (natToDecBytes n) = some (n : Int) := by
  obtain ⟨c, rest, hcr⟩ : ∃ c rest, natToDecBytes n = c :: rest := by
    cases hh : natToDecBytes n with
    | nil => exact absurd hh (natToDecBytes_ne_nil n)
    | cons c rest => exact ⟨c, rest, rfl⟩
  have hdig := natToDecBytes_digits n
  have hc : 48 ≤ c ∧ c ≤ 57 := hdig c (by rw [hcr]; simp)
  have hfold := natToDecBytes_foldl n
  have hall : (c :: rest).all (fun d => decide (48 ≤ d ∧ d ≤ 57)) = true := by
    apply List.all_eq_true.mpr
    intro d hd
    have := hdig d (by rw [hcr]; exact hd)
    exact decide_eq_true this
  rw [hcr] at hfold ⊢
  have hc45 : ¬ c = 45 := by omega
  have hc43 : ¬ c = 43 := by omega
  show (if c = 45 then parseGoInt64Core true rest
    else if c = 43 then parseGoInt64Core false rest
    else parseGoInt64Core false (c :: rest)) = some (n : Int)
  rw [if_neg hc45, if_neg hc43]
  unfold parseGoInt64Core
  rw [if_neg (List.cons_ne_nil c rest), if_pos hall]
  simp only [hfold, Bool.false_eq_true, if_false]
  rw [if_pos (by omega)]

/-- Every byte of a SHA-256 digest is below 256. -/
theorem sha256_bytes_lt (msg : List Nat) : ∀ b ∈ sha256 msg, b < 256 := by
  intro b hb
  unfold sha256 at hb
  simp only [List.mem_flatten, List.mem_map] at hb
  obtain ⟨l, ⟨w, _, rfl⟩, hbl⟩ := hb
  simp only [be32, List.mem_cons, List.not_mem_nil, or_false] at hbl
  rcases hbl with rfl | rfl | rfl | rfl <;> omega

/-- Every byte of an HMAC-SHA256 tag is below 256. -/
theorem hmacSHA256_bytes_lt (key msg : List Nat) : ∀ b ∈ hmacSHA256 key msg, b < 256 := by
  intro b hb
  unfold hmacSHA256 at hb
  exact sha256_bytes_lt _ b hb

end Fyndmark

namespace Fyndmark

/-- Round trip of the token scheme: verification of a freshly signed
decision token recovers exactly the signed comment id, action and
expiry, for any site key and comment id that contain no pipe byte. -/
theorem verify_signToken (siteKey commentID action secret : Str) (exp : Nat)
    (hsB : ∀ b ∈ siteKey, b < 256) (hcB : ∀ b ∈ commentID, b < 256)
    (hsP : 124 ∉ siteKey) (hcP : 124 ∉ commentID)
    (ha : action = strBytes "approve" ∨ action = strBytes "reject")
    (hexp : exp < 2 ^ 63) :
    verifyDecisionToken siteKey secret
      (signToken (decisionPayload siteKey commentID action exp) secret) =
      .ok (commentID, action, (exp : Int)) := by
  have haB : ∀ b ∈ action, b < 256 := by
    rcases ha with rfl | rfl <;> decide
  have haP : (124 : Nat) ∉ action := by
    rcases ha with rfl | rfl <;> decide
  have hdigD := natToDecBytes_digits exp
  have hdigP : (124 : Nat) ∉ natToDecBytes exp := fun hm => by
    have := hdigD 124 hm
    omega
  have hpB : ∀ b ∈ decisionPayload siteKey commentID action exp, b < 256 := by
    intro b hb
    unfold decisionPayload at hb
    simp only [List.append_assoc, List.singleton_append, List.mem_append, List.mem_cons,
      or_assoc] at hb
    rcases hb with hb | rfl | hb | rfl | hb | rfl | hb
    · exact hsB b hb
    · omega
    · exact hcB b hb
    · omega
    · exact haB b hb
    · omega
    · have := hdigD b hb
      omega
  have hsig := hmacSHA256_bytes_lt secret (decisionPayload siteKey commentID action exp)
  unfold signToken verifyDecisionToken
  rw [if_neg (by simp)]
  simp only [List.append_assoc, List.singleton_append]
  rw [splitOnByte_append 46 _ _ (b64Encode_no_dot _),
    splitOnByte_no_sep 46 _ (b64Encode_no_dot _)]
  show verifyParts siteKey secret
    (b64Encode (decisionPayload siteKey commentID action exp))
    (b64Encode (hmacSHA256 secret (decisionPayload siteKey commentID action exp))) = _
  unfold verifyParts
  rw [b64Decode_b64Encode _ hpB, b64Decode_b64Encode _ hsig]
  show verifySig siteKey secret (decisionPayload siteKey commentID action exp)
    (hmacSHA256 secret (decisionPayload siteKey commentID action exp)) = _
  unfold verifySig
  rw [if_pos rfl]
  unfold verifyPayloadFields decisionPayload
  simp only [List.append_assoc, List.singleton_append, List.cons_append, List.nil_append]
  rw [splitOnByte_append 124 _ _ hsP, splitOnByte_append 124 _ _ hcP,
    splitOnByte_append 124 _ _ haP, splitOnByte_no_sep 124 _ hdigP]
  show verifySiteExp siteKey siteKey commentID action (natToDecBytes exp) = _
  unfold verifySiteExp
  rw [if_pos rfl, parseGoInt64_natToDecBytes exp hexp]

end Fyndmark

namespace Fyndmark

/-- A concrete decision token: site "blog", comment "01ABC", action
approve, expiry 1700000000, secret "s3cr3t". -/
def c2Token : Str :=
  signToken (decisionPayload (strBytes "blog") (strBytes "01ABC") (strBytes "approve") 1700000000)
    (strBytes "s3cr3t")

/-- c2Token with its final byte replaced by the alphabet character whose
6-bit value is one higher.  The final base64 quantum of the signature
segment carries two unused trailing bits, so this change is invisible to
the non-strict decoder. -/
def c2MutToken : Str :=
  c2Token.dropLast ++ [b64Char (((b64DecVal (c2Token.getLastD 0)).getD 0) + 1)]

set_option maxRecDepth 1000000 in
/-- C2 counterexample: a token that differs from the signed token in its
final byte (same length, same prefix) still verifies, and yields the very
same comment id, action and expiry, because the default Go base64 decoder
discards the unused trailing bits of the final character.  Byte mutation
therefore does not always invalidate verification. -/
theorem c2_mutated_token_still_verifies :
    c2MutToken ≠ c2Token ∧
    c2MutToken.length = c2Token.length ∧
    c2MutToken.dropLast = c2Token.dropLast ∧
    verifyDecisionToken (strBytes "blog") (strBytes "s3cr3t") c2MutToken =
      .ok (strBytes "01ABC", strBytes "approve", (1700000000 : Int)) := by
  decide

/-- Witness for the C2 round-trip theorem at the concrete inputs of
c2Token. -/
theorem verify_signToken_witness :
    (124 : Nat) ∉ strBytes "blog" ∧
    verifyDecisionToken (strBytes "blog") (strBytes "s3cr3t")
      (signToken
        (decisionPayload (strBytes "blog") (strBytes "01ABC") (strBytes "approve") 1700000000)
        (strBytes "s3cr3t")) =
      .ok (strBytes "01ABC", strBytes "approve", (1700000000 : Int)) :=
  ⟨by decide,
    verify_signToken (strBytes "blog") (strBytes "01ABC") (strBytes "approve")
      (strBytes "s3cr3t") 1700000000 (by decide) (by decide) (by decide) (by decide)
      (Or.inl rfl) (by decide)⟩

end Fyndmark

namespace Fyndmark

/-! ## The comments store and the pipeline worker

Rows and conditional updates of src/pkg/db/comments.go, and the bounded
worker of the pipeline package (part_019 lines 243-362). -/

/-- A comments row with the columns involved in the decision updates.
site_id is the int64 sites.id. -/
structure CommentRow where
  id : Str
  siteID : Int
  status : Str
  approvedAt : Option Nat
  rejectedAt : Option Nat
deriving DecidableEq

/-- The WHERE clause of ApproveComment and RejectComment: the row matches
the site, the comment id, and is still pending. -/
def rowMatchesPending (siteID : Int) (commentID : Str) (r : CommentRow) : Bool :=
  decide (r.siteID = siteID ∧ r.id = commentID ∧ r.status = strBytes "pending")

/-- ApproveComment (comments.go lines 126-151): UPDATE comments SET
status=approved, approved_at=now, rejected_at=NULL WHERE site_id=? AND
id=? AND status=pending.  Returns the updated rows and whether any row
was affected. -/
def approveComment (now : Nat) (siteID : Int) (commentID : Str) (rows : List CommentRow) :
    List CommentRow × Bool :=
  (rows.map (fun r =>
      if rowMatchesPending siteID commentID r then
        { r with status := strBytes "approved", approvedAt := some now, rejectedAt := none }
      else r),
   rows.any (rowMatchesPending siteID commentID))

/-- RejectComment (comments.go lines 155-180): the symmetric update. -/
def rejectComment (now : Nat) (siteID : Int) (commentID : Str) (rows : List CommentRow) :
    List CommentRow × Bool :=
  (rows.map (fun r =>
      if rowMatchesPending siteID commentID r then
        { r with status := strBytes "rejected", rejectedAt := some now, approvedAt := none }
      else r),
   rows.any (rowMatchesPending siteID commentID))

/-- The queue-relevant state of the pipeline Worker: its stop flag and the
fill level of its buffered channel. -/
structure WorkerState where
  stopped : Bool
  queueLen : Nat
  capacity : Nat
deriving DecidableEq

/-- NewWorker (part_019 lines 276-285): a non-positive queueSize falls back
to DefaultQueueSize = 32. -/
def newWorker (queueSize : Int) : WorkerState :=
  { stopped := false, queueLen := 0,
    capacity := if queueSize ≤ 0 then 32 else queueSize.toNat }

/-- The error strings ErrQueueFull and ErrWorkerStopped. -/
def errQueueFull : Str := strBytes "pipeline queue is full"

def errWorkerStopped : Str := strBytes "pipeline worker stopped"

/-- Worker.EnqueueRun (part_019 lines 327-347): fail once shutdown has been
signalled; otherwise a non-blocking channel send that fails when the
buffer is saturated and enqueues otherwise. -/
def enqueueRun (w : WorkerState) : Except Str WorkerState :=
  if w.stopped then .error errWorkerStopped
  else if w.capacity ≤ w.queueLen then .error errQueueFull
  else .ok { w with queueLen := w.queueLen + 1 }

/-! ## The decision handler over a world (part_005 GetDecision lines 446-592)

The world carries the two tables the handler touches, the sites lookup
and the worker; the handler returns the new world, the HTTP response and
the ordered trace of persistence-store and enqueue calls it performed. -/

structure RunTable where
  rows : List (Nat × RunRow)
  nextID : Nat
deriving DecidableEq

/-- CreateRun (db.go lines 136-152): insert a queued row under a fresh id. -/
def createRun (now : Nat) (t : RunTable) : RunTable × Nat :=
  ({ rows := t.rows ++ [(t.nextID, newRunRow now)], nextID := t.nextID + 1 }, t.nextID)

/-- MarkRunFailed applied to the run table. -/
def runTableMarkFailed (now : Nat) (runID : Nat) (step msg : Str) (t : RunTable) : RunTable :=
  { t with rows := t.rows.map (fun p =>
      if p.1 = runID then (p.1, markRunFailed now step msg p.2) else p) }

structure DecisionWorld where
  comments : List CommentRow
  runs : RunTable
  sites : List (Str × Int)
  worker : Option WorkerState
deriving DecidableEq

/-- GetSiteIDByKey: the sites-table lookup. -/
def lookupSiteID (w : DecisionWorld) (siteKey : Str) : Option Int :=
  (w.sites.find? (fun p => p.1 == siteKey)).map (fun p => p.2)

/-- The persistence-store and enqueue calls the decision handler can make,
in the order it makes them. -/
inductive Event where
  | getSiteIDByKey
  | approveComment
  | rejectComment
  | createRun
  | enqueueRun
  | markRunFailed
deriving DecidableEq

structure HttpResponse where
  status : Nat
  body : Str
deriving DecidableEq

structure DecisionResult where
  world : DecisionWorld
  response : HttpResponse
  events : List Event
deriving DecidableEq

/-- The bytes Go strings.TrimSpace strips (ASCII white space). -/
def isGoSpace (c : Nat) : Bool :=
  c == 32 || c == 9 || c == 10 || c == 11 || c == 12 || c == 13

def goTrimSpace (s : Str) : Str :=
  ((s.dropWhile isGoSpace).reverse.dropWhile isGoSpace).reverse

/-- The approve arm of the handler switch (lines 539-571): conditional
update, then on a fresh change create a run and enqueue it, marking the
run failed at step "enqueue" when the enqueue is refused.  CreateRun
itself cannot fail in the model (store failures are environment errors
outside it). -/
def approveBranch (commentID : Str) (siteID : Int) (now : Nat)
    (w : DecisionWorld) : DecisionResult :=
  match approveComment now siteID commentID w.comments with
  | (rows, changed) =>
    let w1 := { w with comments := rows }
    if changed then
      match w1.worker with
      | none =>
        ⟨w1, ⟨200, strBytes "approved (pipeline not configured)"⟩, [.approveComment]⟩
      | some wk =>
        match createRun now w1.runs with
        | (t, runID) =>
          let w2 := { w1 with runs := t }
          match enqueueRun wk with
          | .error e =>
            ⟨{ w2 with runs := runTableMarkFailed now runID stepEnqueue e w2.runs },
             ⟨200, strBytes "approved (pipeline enqueue failed)"⟩,
             [.approveComment, .createRun, .enqueueRun, .markRunFailed]⟩
          | .ok wk2 =>
            ⟨{ w2 with worker := some wk2 },
             ⟨200, strBytes "approved (pipeline queued, run_id=" ++ natToDecBytes runID ++
               strBytes ")"⟩,
             [.approveComment, .createRun, .enqueueRun]⟩
    else
      ⟨w1, ⟨200, strBytes "nothing to approve (already decided or not found)"⟩,
       [.approveComment]⟩

/-- The reject arm of the handler switch (lines 573-585). -/
def rejectBranch (commentID : Str) (siteID : Int) (now : Nat)
    (w : DecisionWorld) : DecisionResult :=
  match rejectComment now siteID commentID w.comments with
  | (rows, changed) =>
    let w1 := { w with comments := rows }
    if changed then ⟨w1, ⟨200, strBytes "rejected"⟩, [.rejectComment]⟩
    else
      ⟨w1, ⟨200, strBytes "nothing to reject (already decided or not found)"⟩,
       [.rejectComment]⟩

/-- The action switch (lines 538-590). -/
def decisionAction (commentID action : Str) (siteID : Int) (now : Nat)
    (w : DecisionWorld) : DecisionResult :=
  if action = strBytes "approve" then approveBranch commentID siteID now w
  else if action = strBytes "reject" then rejectBranch commentID siteID now w
  else ⟨w, ⟨400, strBytes "invalid action"⟩, []⟩

/-- Prefix an event onto a result trace. -/
def addEvent (e : Event) (r : DecisionResult) : DecisionResult :=
  ⟨r.world, r.response, e :: r.events⟩

/-- Lines 503-536: require the payload site to match the URL site, then
perform the first persistence call (GetSiteIDByKey), parse the expiry,
compare it to the clock and dispatch the action switch. -/
def decideSite (siteKey tokenSiteID commentID action expStr : Str) (now : Nat)
    (w : DecisionWorld) : DecisionResult :=
  if tokenSiteID = siteKey then
    match lookupSiteID w siteKey with
    | none => ⟨w, ⟨404, strBytes "unknown site"⟩, [.getSiteIDByKey]⟩
    | some siteID =>
      match parseGoInt64 expStr with
      | none => ⟨w, ⟨400, strBytes "invalid token expiry"⟩, [.getSiteIDByKey]⟩
      | some exp =>
        if (now : Int) > exp then
          ⟨w, ⟨403, strBytes "token expired"⟩, [.getSiteIDByKey]⟩
        else
          addEvent .getSiteIDByKey (decisionAction commentID action siteID now w)
  else ⟨w, ⟨403, strBytes "site mismatch"⟩, []⟩

/-- Lines 497-501: split the verified payload into exactly four fields. -/
def decideFields (siteKey payload : Str) (now : Nat) (w : DecisionWorld) : DecisionResult :=
  match splitOnByte 124 payload with
  | [tokenSiteID, commentID, action, expStr] =>
    decideSite siteKey tokenSiteID commentID action expStr now w
  | _ => ⟨w, ⟨400, strBytes "invalid token payload"⟩, []⟩

/-- Lines 487-494: the constant-time HMAC comparison. -/
def decideSig (siteKey sec payload sigB : Str) (now : Nat) (w : DecisionWorld) :
    DecisionResult :=
  if sigB = hmacSHA256 sec payload then decideFields siteKey payload now w
  else ⟨w, ⟨403, strBytes "invalid token signature"⟩, []⟩

/-- Lines 474-485: base64url-decode both token parts. -/
def decideParts (siteKey sec p sgn : Str) (now : Nat) (w : DecisionWorld) : DecisionResult :=
  match b64Decode p with
  | none => ⟨w, ⟨400, strBytes "invalid token payload encoding"⟩, []⟩
  | some payload =>
    match b64Decode sgn with
    | none => ⟨w, ⟨400, strBytes "invalid token signature encoding"⟩, []⟩
    | some sigB => decideSig siteKey sec payload sigB now w

/-- GetDecision past the site-config lookup (part_005 lines 456-592,
written as a composition that follows the handler's sections): token trim
and emptiness check, dot split, then decoding, HMAC check, field split,
site match, GetSiteIDByKey, expiry handling and the action switch, each
early return carrying the handler's response text. -/
def getDecisionSec (siteKey sec : Str) (now : Nat) (rawToken : Str)
    (w : DecisionWorld) : DecisionResult :=
  let token := goTrimSpace rawToken
  if token = [] then ⟨w, ⟨400, strBytes "missing token"⟩, []⟩
  else
    match splitOnByte 46 token with
    | [p, sgn] => decideParts siteKey sec p sgn now w
    | _ => ⟨w, ⟨400, strBytes "invalid token format"⟩, []⟩

/-- GetDecision (part_005 lines 446-592).  The secret argument is the
site's configured token secret, none when the site key is not present in
the configuration (the handler then answers 404 before anything else). -/
def getDecision (siteKey : Str) (secret : Option Str) (now : Nat)
    (rawToken : Str) (w : DecisionWorld) : DecisionResult :=
  match secret with
  | none => ⟨w, ⟨404, strBytes "unknown site"⟩, []⟩
  | some sec => getDecisionSec siteKey sec now rawToken w

end Fyndmark

namespace Fyndmark

/-- dropWhile is the identity when no element satisfies the predicate. -/
theorem dropWhile_eq_self_of_all (p : Nat → Bool) (l : List Nat)
    (h : ∀ c ∈ l, p c = false) : l.dropWhile p = l := by
  cases l with
  | nil => rfl
  | cons a as => simp [List.dropWhile_cons, h a (by simp)]

/-- Trimming is the identity on byte lists without white space. -/
theorem goTrimSpace_eq_self (l : Str) (h : ∀ c ∈ l, isGoSpace c = false) :
    goTrimSpace l = l := by
  unfold goTrimSpace
  rw [dropWhile_eq_self_of_all _ _ h,
    dropWhile_eq_self_of_all _ _ (fun c hc => h c (List.mem_reverse.mp hc)),
    List.reverse_reverse]

/-- A signed token contains no white-space byte: its characters are the
base64url alphabet plus the dot. -/
theorem signToken_no_space (payload secret : Str) :
    ∀ c ∈ signToken payload secret, isGoSpace c = false := by
  intro c hc
  unfold signToken at hc
  simp only [List.append_assoc, List.singleton_append, List.mem_append, List.mem_cons] at hc
  have hval : c = 46 ∨ ∃ v, c = b64Char v := by
    rcases hc with hc | rfl | hc
    · right
      unfold b64Encode at hc
      simp only [List.mem_map] at hc
      obtain ⟨v, _, rfl⟩ := hc
      exact ⟨v, rfl⟩
    · left
      rfl
    · right
      unfold b64Encode at hc
      simp only [List.mem_map] at hc
      obtain ⟨v, _, rfl⟩ := hc
      exact ⟨v, rfl⟩
  unfold isGoSpace
  rcases hval with rfl | ⟨v, rfl⟩
  · rfl
  · have := b64Char_range v
    simp only [Bool.or_eq_false_iff, beq_eq_false_iff_ne, ne_eq]
    omega

/-- A signed token is never empty. -/
theorem signToken_ne_nil (payload secret : Str) : signToken payload secret ≠ [] := by
  unfold signToken
  simp

/-- Splitting a signed token on the dot yields its two encoded parts. -/
theorem splitOnByte_signToken (payload secret : Str) :
    splitOnByte 46 (signToken payload secret) =
      [b64Encode payload, b64Encode (hmacSHA256 secret payload)] := by
  unfold signToken
  simp only [List.append_assoc, List.singleton_append]
  rw [splitOnByte_append 46 _ _ (b64Encode_no_dot _),
    splitOnByte_no_sep 46 _ (b64Encode_no_dot _)]

/-- The reduction of the decision handler on a freshly signed token: the
handler reaches the GetSiteIDByKey lookup and, when the site row exists
and the token is not expired, dispatches the action switch after exactly
one preceding persistence call. -/
theorem getDecision_signToken_action (siteKey commentID action secret : Str)
    (exp now : Nat) (siteID : Int) (w : DecisionWorld)
    (hsB : ∀ b ∈ siteKey, b < 256) (hcB : ∀ b ∈ commentID, b < 256)
    (hsP : (124 : Nat) ∉ siteKey) (hcP : (124 : Nat) ∉ commentID)
    (ha : action = strBytes "approve" ∨ action = strBytes "reject")
    (hexp : exp < 2 ^ 63)
    (hlk : lookupSiteID w siteKey = some siteID)
    (hnx : ¬ ((now : Int) > (exp : Nat))) :
    getDecision siteKey (some secret) now
      (signToken (decisionPayload siteKey commentID action exp) secret) w =
      addEvent .getSiteIDByKey (decisionAction commentID action siteID now w) := by
  have haB : ∀ b ∈ action, b < 256 := by
    rcases ha with rfl | rfl <;> decide
  have haP : (124 : Nat) ∉ action := by
    rcases ha with rfl | rfl <;> decide
  have hdigD := natToDecBytes_digits exp
  have hdigP : (124 : Nat) ∉ natToDecBytes exp := fun hm => by
    have := hdigD 124 hm
    omega
  have hpB : ∀ b ∈ decisionPayload siteKey commentID action exp, b < 256 := by
    intro b hb
    unfold decisionPayload at hb
    simp only [List.append_assoc, List.singleton_append, List.mem_append, List.mem_cons,
      or_assoc] at hb
    rcases hb with hb | rfl | hb | rfl | hb | rfl | hb
    · exact hsB b hb
    · omega
    · exact hcB b hb
    · omega
    · exact haB b hb
    · omega
    · have := hdigD b hb
      omega
  have hsig := hmacSHA256_bytes_lt secret (decisionPayload siteKey commentID action exp)
  show getDecisionSec siteKey secret now _ w = _
  unfold getDecisionSec
  rw [goTrimSpace_eq_self _ (signToken_no_space _ _)]
  rw [if_neg (signToken_ne_nil _ _), splitOnByte_signToken]
  show decideParts siteKey secret
    (b64Encode (decisionPayload siteKey commentID action exp))
    (b64Encode (hmacSHA256 secret (decisionPayload siteKey commentID action exp))) now w = _
  unfold decideParts
  rw [b64Decode_b64Encode _ hpB, b64Decode_b64Encode _ hsig]
  show decideSig siteKey secret (decisionPayload siteKey commentID action exp)
    (hmacSHA256 secret (decisionPayload siteKey commentID action exp)) now w = _
  unfold decideSig
  rw [if_pos rfl]
  unfold decideFields decisionPayload
  simp only [List.append_assoc, List.singleton_append, List.cons_append, List.nil_append]
  rw [splitOnByte_append 124 _ _ hsP, splitOnByte_append 124 _ _ hcP,
    splitOnByte_append 124 _ _ haP, splitOnByte_no_sep 124 _ hdigP]
  show decideSite siteKey siteKey commentID action (natToDecBytes exp) now w = _
  unfold decideSite
  rw [if_pos rfl, hlk, parseGoInt64_natToDecBytes exp hexp]
  show (if (now : Int) > ((exp : Nat) : Int) then
      (⟨w, ⟨403, strBytes "token expired"⟩, [.getSiteIDByKey]⟩ : DecisionResult)
    else addEvent .getSiteIDByKey (decisionAction commentID action siteID now w)) = _
  rw [if_neg hnx]

end Fyndmark

namespace Fyndmark

/-- A pending row updated by ApproveComment is no longer pending, so the
conditional update never matches twice. -/
theorem approveComment_none_pending (now : Nat) (siteID : Int) (commentID : Str)
    (rows : List CommentRow) :
    ((approveComment now siteID commentID rows).1).any
      (rowMatchesPending siteID commentID) = false := by
  unfold approveComment
  simp only [List.any_map, List.any_eq_false, Function.comp]
  intro r _
  by_cases h : rowMatchesPending siteID commentID r = true
  · rw [if_pos h]
    intro hc
    have hc2 := of_decide_eq_true hc
    have hne : ¬ (strBytes "approved" = strBytes "pending") := by decide
    exact hne hc2.2.2
  · rw [if_neg h]
    exact fun hc => h hc

/-- Applying ApproveComment when no row matches leaves every row
unchanged. -/
theorem approveComment_id_of_none (now : Nat) (siteID : Int) (commentID : Str)
    (rows : List CommentRow)
    (h : rows.any (rowMatchesPending siteID commentID) = false) :
    (approveComment now siteID commentID rows).1 = rows := by
  unfold approveComment
  simp only [List.any_eq_false] at h
  simp only []
  apply List.map_congr_left ?_ |>.trans (List.map_id rows)
  intro r hr
  rw [if_neg (fun hc => h r hr hc)]
  rfl

/-- The comments table after the approve arm is always the conditional
update of the previous table, whatever the enqueue path does. -/
theorem approveBranch_comments (commentID : Str) (siteID : Int) (now : Nat)
    (w : DecisionWorld) :
    (approveBranch commentID siteID now w).world.comments =
      (approveComment now siteID commentID w.comments).1 := by
  unfold approveBranch
  dsimp only
  split
  · split
    · rfl
    · split
      · rfl
      · rfl
  · rfl

/-- The approve arm when the conditional update hits a pending row, the
worker exists and the enqueue is refused: the run just created is marked
failed at step "enqueue" with the enqueue error message, and the handler
answers 200 "approved (pipeline enqueue failed)". -/
theorem approveBranch_enqueue_failed (commentID : Str) (siteID : Int) (now : Nat)
    (w : DecisionWorld) (wk : WorkerState) (e : Str)
    (hwf : ∀ p ∈ w.runs.rows, p.1 < w.runs.nextID)
    (hch : w.comments.any (rowMatchesPending siteID commentID) = true)
    (hwk : w.worker = some wk) (he : enqueueRun wk = .error e) :
    approveBranch commentID siteID now w =
      ⟨{ w with
           comments := (approveComment now siteID commentID w.comments).1,
           runs := { rows := w.runs.rows ++
                       [(w.runs.nextID, markRunFailed now stepEnqueue e (newRunRow now))],
                     nextID := w.runs.nextID + 1 } },
       ⟨200, strBytes "approved (pipeline enqueue failed)"⟩,
       [.approveComment, .createRun, .enqueueRun, .markRunFailed]⟩ := by
  unfold approveBranch
  dsimp only
  rw [show (approveComment now siteID commentID w.comments).2 =
    w.comments.any (rowMatchesPending siteID commentID) from rfl]
  rw [hch, if_pos rfl, hwk]
  dsimp only
  rw [he]
  dsimp only
  unfold createRun runTableMarkFailed
  dsimp only
  have h1 : List.map
      (fun p => if p.1 = w.runs.nextID then (p.1, markRunFailed now stepEnqueue e p.2) else p)
      w.runs.rows = w.runs.rows := by
    apply (List.map_congr_left ?_).trans (List.map_id _)
    intro p hp
    rw [if_neg (fun hid => absurd (hid ▸ hwf p hp) (lt_irrefl _))]
    rfl
  congr 2
  rw [List.map_append, h1]
  simp

end Fyndmark

namespace Fyndmark

/-- The approve arm never touches the sites table. -/
theorem approveBranch_sites (commentID : Str) (siteID : Int) (now : Nat)
    (w : DecisionWorld) :
    (approveBranch commentID siteID now w).world.sites = w.sites := by
  unfold approveBranch
  dsimp only
  split
  · split
    · rfl
    · split
      · rfl
      · rfl
  · rfl

/-- The approve arm when no pending row matches: the conditional update
changes nothing, no run is created and the handler answers the idempotent
no-op text. -/
theorem approveBranch_noop (commentID : Str) (siteID : Int) (now : Nat)
    (w : DecisionWorld)
    (hch : w.comments.any (rowMatchesPending siteID commentID) = false) :
    approveBranch commentID siteID now w =
      ⟨w, ⟨200, strBytes "nothing to approve (already decided or not found)"⟩,
       [.approveComment]⟩ := by
  unfold approveBranch
  dsimp only
  rw [show (approveComment now siteID commentID w.comments).2 =
    w.comments.any (rowMatchesPending siteID commentID) from rfl, hch,
    if_neg Bool.false_ne_true]
  rw [approveComment_id_of_none now siteID commentID w.comments hch]

/-- C3: in the decision handler, when the approve update succeeds but
enqueueing the freshly created run fails, the handler marks that run
failed at step "enqueue" with the enqueue error message, answers
200 "approved (pipeline enqueue failed)", and the comment stays approved:
the moderation decision is not rolled back. -/
theorem c3_enqueue_failure_keeps_approval (siteKey commentID secret : Str)
    (exp now : Nat) (siteID : Int) (w : DecisionWorld) (r : CommentRow)
    (wk : WorkerState) (e : Str)
    (hsB : ∀ b ∈ siteKey, b < 256) (hcB : ∀ b ∈ commentID, b < 256)
    (hsP : (124 : Nat) ∉ siteKey) (hcP : (124 : Nat) ∉ commentID)
    (hexp : exp < 2 ^ 63)
    (hlk : lookupSiteID w siteKey = some siteID)
    (hnx : ¬ ((now : Int) > (exp : Nat)))
    (hwf : ∀ p ∈ w.runs.rows, p.1 < w.runs.nextID)
    (hr : r ∈ w.comments) (hrs : r.siteID = siteID) (hri : r.id = commentID)
    (hrp : r.status = strBytes "pending")
    (hwk : w.worker = some wk) (he : enqueueRun wk = .error e) :
    (getDecision siteKey (some secret) now
        (signToken (decisionPayload siteKey commentID (strBytes "approve") exp) secret)
        w).response =
      ⟨200, strBytes "approved (pipeline enqueue failed)"⟩ ∧
    (w.runs.nextID, markRunFailed now stepEnqueue e (newRunRow now)) ∈
      (getDecision siteKey (some secret) now
        (signToken (decisionPayload siteKey commentID (strBytes "approve") exp) secret)
        w).world.runs.rows ∧
    { r with status := strBytes "approved", approvedAt := some now, rejectedAt := none } ∈
      (getDecision siteKey (some secret) now
        (signToken (decisionPayload siteKey commentID (strBytes "approve") exp) secret)
        w).world.comments ∧
    (getDecision siteKey (some secret) now
        (signToken (decisionPayload siteKey commentID (strBytes "approve") exp) secret)
        w).events =
      [.getSiteIDByKey, .approveComment, .createRun, .enqueueRun, .markRunFailed] := by
  have hch : w.comments.any (rowMatchesPending siteID commentID) = true :=
    List.any_eq_true.mpr
      ⟨r, hr, by unfold rowMatchesPending; exact decide_eq_true ⟨hrs, hri, hrp⟩⟩
  rw [getDecision_signToken_action siteKey commentID (strBytes "approve") secret exp now
    siteID w hsB hcB hsP hcP (Or.inl rfl) hexp hlk hnx]
  unfold decisionAction
  rw [if_pos rfl]
  rw [approveBranch_enqueue_failed commentID siteID now w wk e hwf hch hwk he]
  unfold addEvent
  refine ⟨rfl, by simp, ?_, rfl⟩
  unfold approveComment
  dsimp only
  refine List.mem_map.mpr ⟨r, hr, ?_⟩
  rw [if_pos (by unfold rowMatchesPending; exact decide_eq_true ⟨hrs, hri, hrp⟩)]

/-- A concrete world for the handler theorems: one pending comment for
site "blog" (id 7), an empty run table, and a worker whose queue is
already at its default capacity. -/
def c3World : DecisionWorld :=
  { comments := [{ id := strBytes "01ABC", siteID := 7, status := strBytes "pending",
                   approvedAt := none, rejectedAt := none }],
    runs := { rows := [], nextID := 1 },
    sites := [(strBytes "blog", 7)],
    worker := some { stopped := false, queueLen := 32, capacity := 32 } }

/-- Witness for the C3 theorem at the concrete world c3World, where the
enqueue fails with the queue-full error. -/
theorem c3_enqueue_failure_keeps_approval_witness :
    enqueueRun { stopped := false, queueLen := 32, capacity := 32 } = .error errQueueFull ∧
    (getDecision (strBytes "blog") (some (strBytes "s3cr3t")) 7
        (signToken
          (decisionPayload (strBytes "blog") (strBytes "01ABC") (strBytes "approve") 1700000000)
          (strBytes "s3cr3t"))
        c3World).response =
      ⟨200, strBytes "approved (pipeline enqueue failed)"⟩ :=
  ⟨by decide,
    (c3_enqueue_failure_keeps_approval (strBytes "blog") (strBytes "01ABC")
      (strBytes "s3cr3t") 1700000000 7 7 c3World
      { id := strBytes "01ABC", siteID := 7, status := strBytes "pending",
        approvedAt := none, rejectedAt := none }
      { stopped := false, queueLen := 32, capacity := 32 } errQueueFull
      (by decide) (by decide) (by decide) (by decide) (by decide)
      (by decide) (by decide) (by decide) (by decide) (by decide) (by decide)
      (by decide) rfl (by decide)).1⟩

end Fyndmark

namespace Fyndmark

/-- C4: approving the same comment twice.  The first decision click flips
the pending row to approved and stamps approved_at; the second click
finds no pending row, changes nothing (no timestamp change, no new run
row and no enqueue), and answers 200 "nothing to approve (already
decided or not found)". -/
theorem c4_approve_twice_idempotent (siteKey commentID secret : Str)
    (exp now1 now2 : Nat) (siteID : Int) (w : DecisionWorld) (r : CommentRow)
    (hsB : ∀ b ∈ siteKey, b < 256) (hcB : ∀ b ∈ commentID, b < 256)
    (hsP : (124 : Nat) ∉ siteKey) (hcP : (124 : Nat) ∉ commentID)
    (hexp : exp < 2 ^ 63)
    (hlk : lookupSiteID w siteKey = some siteID)
    (hnx1 : ¬ ((now1 : Int) > (exp : Nat))) (hnx2 : ¬ ((now2 : Int) > (exp : Nat)))
    (hr : r ∈ w.comments) (hrs : r.siteID = siteID) (hri : r.id = commentID)
    (hrp : r.status = strBytes "pending") :
    (approveComment now1 siteID commentID w.comments).2 = true ∧
    { r with status := strBytes "approved", approvedAt := some now1, rejectedAt := none } ∈
      (getDecision siteKey (some secret) now1
        (signToken (decisionPayload siteKey commentID (strBytes "approve") exp) secret)
        w).world.comments ∧
    getDecision siteKey (some secret) now2
        (signToken (decisionPayload siteKey commentID (strBytes "approve") exp) secret)
        ((getDecision siteKey (some secret) now1
          (signToken (decisionPayload siteKey commentID (strBytes "approve") exp) secret)
          w).world) =
      ⟨(getDecision siteKey (some secret) now1
          (signToken (decisionPayload siteKey commentID (strBytes "approve") exp) secret)
          w).world,
       ⟨200, strBytes "nothing to approve (already decided or not found)"⟩,
       [.getSiteIDByKey, .approveComment]⟩ := by
  have hmatch : rowMatchesPending siteID commentID r = true := by
    unfold rowMatchesPending
    exact decide_eq_true ⟨hrs, hri, hrp⟩
  have hch1 : w.comments.any (rowMatchesPending siteID commentID) = true :=
    List.any_eq_true.mpr ⟨r, hr, hmatch⟩
  have hd1 : getDecision siteKey (some secret) now1
      (signToken (decisionPayload siteKey commentID (strBytes "approve") exp) secret) w =
      addEvent .getSiteIDByKey
        (decisionAction commentID (strBytes "approve") siteID now1 w) :=
    getDecision_signToken_action siteKey commentID (strBytes "approve") secret exp now1
      siteID w hsB hcB hsP hcP (Or.inl rfl) hexp hlk hnx1
  have hw1c : (getDecision siteKey (some secret) now1
      (signToken (decisionPayload siteKey commentID (strBytes "approve") exp) secret)
      w).world.comments = (approveComment now1 siteID commentID w.comments).1 := by
    rw [hd1]
    unfold addEvent decisionAction
    rw [if_pos rfl]
    exact approveBranch_comments commentID siteID now1 w
  have hw1s : (getDecision siteKey (some secret) now1
      (signToken (decisionPayload siteKey commentID (strBytes "approve") exp) secret)
      w).world.sites = w.sites := by
    rw [hd1]
    unfold addEvent decisionAction
    rw [if_pos rfl]
    exact approveBranch_sites commentID siteID now1 w
  have hlk2 : lookupSiteID
      ((getDecision siteKey (some secret) now1
        (signToken (decisionPayload siteKey commentID (strBytes "approve") exp) secret)
        w).world) siteKey = some siteID := by
    unfold lookupSiteID
    rw [hw1s]
    exact hlk
  have hch2 : ((getDecision siteKey (some secret) now1
      (signToken (decisionPayload siteKey commentID (strBytes "approve") exp) secret)
      w).world).comments.any (rowMatchesPending siteID commentID) = false := by
    rw [hw1c]
    exact approveComment_none_pending now1 siteID commentID w.comments
  refine ⟨hch1, ?_, ?_⟩
  · rw [hw1c]
    unfold approveComment
    dsimp only
    exact List.mem_map.mpr ⟨r, hr, by rw [if_pos hmatch]⟩
  · rw [getDecision_signToken_action siteKey commentID (strBytes "approve") secret exp now2
      siteID _ hsB hcB hsP hcP (Or.inl rfl) hexp hlk2 hnx2]
    unfold decisionAction
    rw [if_pos rfl]
    rw [approveBranch_noop commentID siteID now2 _ hch2]
    rfl

/-- Witness for the C4 theorem: the second click on the approve link of
the concrete world answers the idempotent no-op text. -/
theorem c4_approve_twice_idempotent_witness :
    (approveComment 7 7 (strBytes "01ABC") c3World.comments).2 = true ∧
    getDecision (strBytes "blog") (some (strBytes "s3cr3t")) 8
        (signToken
          (decisionPayload (strBytes "blog") (strBytes "01ABC") (strBytes "approve") 1700000000)
          (strBytes "s3cr3t"))
        ((getDecision (strBytes "blog") (some (strBytes "s3cr3t")) 7
          (signToken
            (decisionPayload (strBytes "blog") (strBytes "01ABC") (strBytes "approve") 1700000000)
            (strBytes "s3cr3t"))
          c3World).world) =
      ⟨(getDecision (strBytes "blog") (some (strBytes "s3cr3t")) 7
          (signToken
            (decisionPayload (strBytes "blog") (strBytes "01ABC") (strBytes "approve") 1700000000)
            (strBytes "s3cr3t"))
          c3World).world,
       ⟨200, strBytes "nothing to approve (already decided or not found)"⟩,
       [.getSiteIDByKey, .approveComment]⟩ :=
  ⟨(c4_approve_twice_idempotent (strBytes "blog") (strBytes "01ABC") (strBytes "s3cr3t")
      1700000000 7 8 7 c3World
      { id := strBytes "01ABC", siteID := 7, status := strBytes "pending",
        approvedAt := none, rejectedAt := none }
      (by decide) (by decide) (by decide) (by decide) (by decide) (by decide)
      (by decide) (by decide) (by decide) (by decide) (by decide) (by decide)).1,
   (c4_approve_twice_idempotent (strBytes "blog") (strBytes "01ABC") (strBytes "s3cr3t")
      1700000000 7 8 7 c3World
      { id := strBytes "01ABC", siteID := 7, status := strBytes "pending",
        approvedAt := none, rejectedAt := none }
      (by decide) (by decide) (by decide) (by decide) (by decide) (by decide)
      (by decide) (by decide) (by decide) (by decide) (by decide) (by decide)).2.2⟩

end Fyndmark

namespace Fyndmark

/-- Whether the token carries a structurally valid, HMAC-correct
signature: the dot-split yields two decodable parts and the decoded
signature equals the HMAC of the decoded payload. -/
def tokenSigOK (sec rawToken : Str) : Bool :=
  match splitOnByte 46 (goTrimSpace rawToken) with
  | [p, sgn] =>
    match b64Decode p, b64Decode sgn with
    | some payload, some sigB => decide (sigB = hmacSHA256 sec payload)
    | _, _ => false
  | _ => false

/-- C7: the decision handler performs no persistence call on a request
whose token signature is invalid (malformed structure, undecodable
parts, or HMAC mismatch): the world is untouched and the call trace is
empty, so in particular GetSiteIDByKey, ApproveComment and RejectComment
are never reached. -/
theorem c7_sig_verified_before_persistence (siteKey sec rawToken : Str) (now : Nat)
    (w : DecisionWorld) (h : tokenSigOK sec rawToken = false) :
    (getDecision siteKey (some sec) now rawToken w).world = w ∧
    (getDecision siteKey (some sec) now rawToken w).events = [] ∧
    Event.getSiteIDByKey ∉ (getDecision siteKey (some sec) now rawToken w).events ∧
    Event.approveComment ∉ (getDecision siteKey (some sec) now rawToken w).events ∧
    Event.rejectComment ∉ (getDecision siteKey (some sec) now rawToken w).events := by
  have main : (getDecision siteKey (some sec) now rawToken w).world = w ∧
      (getDecision siteKey (some sec) now rawToken w).events = [] := by
    show (getDecisionSec siteKey sec now rawToken w).world = w ∧
      (getDecisionSec siteKey sec now rawToken w).events = []
    unfold getDecisionSec
    unfold tokenSigOK at h
    by_cases htok : goTrimSpace rawToken = []
    · rw [htok]
      exact ⟨rfl, rfl⟩
    · rw [if_neg htok]
      rcases hsp : splitOnByte 46 (goTrimSpace rawToken) with - | ⟨p, - | ⟨sgn, - | ⟨x, rest⟩⟩⟩
      · exact ⟨rfl, rfl⟩
      · exact ⟨rfl, rfl⟩
      · rw [hsp] at h
        show (decideParts siteKey sec p sgn now w).world = w ∧
          (decideParts siteKey sec p sgn now w).events = []
        unfold decideParts
        rcases hdp : b64Decode p with - | payload
        · exact ⟨rfl, rfl⟩
        · rcases hds : b64Decode sgn with - | sigB
          · exact ⟨rfl, rfl⟩
          · dsimp only at h
            rw [hdp, hds] at h
            dsimp only at h
            show (decideSig siteKey sec payload sigB now w).world = w ∧
              (decideSig siteKey sec payload sigB now w).events = []
            unfold decideSig
            rw [if_neg (of_decide_eq_false h)]
            exact ⟨rfl, rfl⟩
      · exact ⟨rfl, rfl⟩
  refine ⟨main.1, main.2, ?_, ?_, ?_⟩ <;> rw [main.2] <;> simp

set_option maxRecDepth 400000 in
/-- Witness for the C7 theorem: a token whose signature bytes are wrong
leaves the world untouched with an empty call trace. -/
theorem c7_sig_verified_before_persistence_witness :
    tokenSigOK (strBytes "s3cr3t") (strBytes "QQ.QQ") = false ∧
    (getDecision (strBytes "blog") (some (strBytes "s3cr3t")) 7 (strBytes "QQ.QQ")
      c3World).events = [] :=
  ⟨by decide,
    (c7_sig_verified_before_persistence (strBytes "blog") (strBytes "s3cr3t")
      (strBytes "QQ.QQ") 7 c3World (by decide)).2.1⟩

/-- C8: EnqueueRun is non-blocking and bounded.  A worker built with a
non-positive queue size gets the default capacity 32; on a saturated
queue EnqueueRun returns the queue-full error; once shutdown has been
signalled every EnqueueRun returns the worker-stopped error; and when the
saturated worker refuses the enqueue, the decision handler marks the
fresh run failed at step "enqueue". -/
theorem c8_enqueue_nonblocking_bounds (w : DecisionWorld) (wk : WorkerState)
    (commentID : Str) (siteID : Int) (now : Nat)
    (hwf : ∀ p ∈ w.runs.rows, p.1 < w.runs.nextID)
    (hch : w.comments.any (rowMatchesPending siteID commentID) = true)
    (hwk : w.worker = some wk) :
    ((newWorker 0).capacity = 32 ∧ (newWorker 0).stopped = false ∧
      (newWorker 0).queueLen = 0) ∧
    (wk.stopped = false → wk.capacity ≤ wk.queueLen →
      enqueueRun wk = .error errQueueFull) ∧
    (wk.stopped = true → enqueueRun wk = .error errWorkerStopped) ∧
    (wk.stopped = false → wk.capacity ≤ wk.queueLen →
      (w.runs.nextID, markRunFailed now stepEnqueue errQueueFull (newRunRow now)) ∈
        (approveBranch commentID siteID now w).world.runs.rows) := by
  have henq : wk.stopped = false → wk.capacity ≤ wk.queueLen →
      enqueueRun wk = .error errQueueFull := by
    intro hst hfull
    unfold enqueueRun
    rw [hst, if_neg Bool.false_ne_true, if_pos hfull]
  refine ⟨⟨rfl, rfl, rfl⟩, henq, ?_, ?_⟩
  · intro hst
    unfold enqueueRun
    rw [hst, if_pos rfl]
  · intro hst hfull
    rw [approveBranch_enqueue_failed commentID siteID now w wk errQueueFull hwf hch hwk
      (henq hst hfull)]
    simp

/-- Witness for the C8 theorem at the saturated concrete worker. -/
theorem c8_enqueue_nonblocking_bounds_witness :
    c3World.comments.any (rowMatchesPending 7 (strBytes "01ABC")) = true ∧
    enqueueRun { stopped := false, queueLen := 32, capacity := 32 } = .error errQueueFull :=
  ⟨by decide,
    (c8_enqueue_nonblocking_bounds c3World
      { stopped := false, queueLen := 32, capacity := 32 } (strBytes "01ABC") 7 7
      (by decide) (by decide) rfl).2.1 rfl (by decide)⟩

end Fyndmark

namespace Fyndmark

/-- The approve loop and run-creation tail of the admin batch moderation
handler (src/pkg/controller/comments_admin.go, postModerateBatch lines
277-326) for action "approve".  ids is the trimmed, deduplicated comment
id list the handler builds first.  Each id gets the conditional
ApproveComment update; changedAny records whether any update hit a row;
a pipeline run is created and enqueued only when action is approve,
changedAny holds and an enqueuer is configured, and an enqueue refusal
marks that run failed at step "enqueue".  Returns the final world,
changedAny, and batch_run_id (zero when no run was enqueued). -/
def batchRunTail (now : Nat) (changedAny : Bool) (w1 : DecisionWorld) :
    DecisionWorld × Bool × Nat :=
  if changedAny then
    match w1.worker with
    | none => (w1, changedAny, 0)
    | some wk =>
      match createRun now w1.runs with
      | (t, runID) =>
        let w2 := { w1 with runs := t }
        match enqueueRun wk with
        | .error e =>
          ({ w2 with runs := runTableMarkFailed now runID stepEnqueue e w2.runs },
           changedAny, 0)
        | .ok wk2 => ({ w2 with worker := some wk2 }, changedAny, runID)
  else (w1, changedAny, 0)

/-- The approve loop of postModerateBatch followed by its run-creation
tail. -/
def moderateBatchApprove (now : Nat) (siteID : Int) (ids : List Str)
    (w : DecisionWorld) : DecisionWorld × Bool × Nat :=
  let folded := ids.foldl
      (fun acc id =>
        ((approveComment now siteID id acc.1).1, acc.2 || (approveComment now siteID id acc.1).2))
      (w.comments, false)
  batchRunTail now folded.2 { w with comments := folded.1 }

/-- A world whose only comment is already approved: a batch re-approval
finds changed=false everywhere. -/
def c9WorldApproved : DecisionWorld :=
  { comments := [{ id := strBytes "01ABC", siteID := 7, status := strBytes "approved",
                   approvedAt := some 1, rejectedAt := none }],
    runs := { rows := [], nextID := 1 },
    sites := [(strBytes "blog", 7)],
    worker := some { stopped := false, queueLen := 0, capacity := 32 } }

/-- C9 counterexample: an admin batch approval whose every targeted
comment returns changed=false creates no pipeline run at all (the run
table is untouched and batch_run_id is zero), although an enqueuer is
configured, so such a batch cannot re-trigger publication. -/
theorem c9_batch_no_run_when_unchanged :
    (moderateBatchApprove 5 7 [strBytes "01ABC"] c9WorldApproved).2.1 = false ∧
    (moderateBatchApprove 5 7 [strBytes "01ABC"] c9WorldApproved).1.runs.rows = [] ∧
    (moderateBatchApprove 5 7 [strBytes "01ABC"] c9WorldApproved).2.2 = 0 := by
  decide

/-- How the run-creation tail of the batch handler treats the run table:
the returned changed flag is its input, no run is created unless the
flag holds and a worker exists, and when it fires exactly one run row
with the fresh id is appended (marked failed when the enqueue is
refused). -/
theorem batchRunTail_spec (now : Nat) (b : Bool) (w1 : DecisionWorld) :
    ((batchRunTail now b w1).2.1 = false ∨ w1.worker = none →
      (batchRunTail now b w1).1.runs = w1.runs) ∧
    (∀ wk, (batchRunTail now b w1).2.1 = true → w1.worker = some wk →
      (batchRunTail now b w1).1.runs.rows.map Prod.fst =
        w1.runs.rows.map Prod.fst ++ [w1.runs.nextID]) := by
  unfold batchRunTail
  cases b with
  | false =>
    rw [if_neg Bool.false_ne_true]
    exact ⟨fun _ => rfl, fun wk hc _ => absurd hc Bool.false_ne_true⟩
  | true =>
    rw [if_pos rfl]
    rcases hwo : w1.worker with - | wk
    · exact ⟨fun _ => rfl, fun wk2 _ hw => by cases hw⟩
    · unfold createRun runTableMarkFailed
      dsimp only
      rcases he : enqueueRun wk with e | wk3
      · constructor
        · rintro (hc | hn)
          · exact absurd hc (by simp)
          · cases hn
        · intro wk2 _ hw
          dsimp only
          rw [List.map_map, List.map_append]
          congr 1
          · apply List.map_congr_left
            intro p _
            by_cases hid : p.1 = w1.runs.nextID
            · rw [Function.comp_apply, if_pos hid]
            · rw [Function.comp_apply, if_neg hid]
          · simp
      · constructor
        · rintro (hc | hn)
          · exact absurd hc (by simp)
          · cases hn
        · intro wk2 _ hw
          dsimp only
          rw [List.map_append]
          simp

/-- C9 amended: the batch approval creates a pipeline run if and only if
at least one targeted comment actually changed to approved and an
enqueuer is configured; when every targeted comment returns
changed=false, or no enqueuer exists, the run table is untouched. -/
theorem c9_batch_run_iff_changed (now : Nat) (siteID : Int) (ids : List Str)
    (w : DecisionWorld) :
    ((moderateBatchApprove now siteID ids w).2.1 = false ∨ w.worker = none →
      (moderateBatchApprove now siteID ids w).1.runs = w.runs) ∧
    (∀ wk, (moderateBatchApprove now siteID ids w).2.1 = true → w.worker = some wk →
      (moderateBatchApprove now siteID ids w).1.runs.rows.map Prod.fst =
        w.runs.rows.map Prod.fst ++ [w.runs.nextID]) := by
  have h := batchRunTail_spec now
    ((ids.foldl
      (fun acc id =>
        ((approveComment now siteID id acc.1).1, acc.2 || (approveComment now siteID id acc.1).2))
      (w.comments, false)).2)
    { w with comments := (ids.foldl
      (fun acc id =>
        ((approveComment now siteID id acc.1).1, acc.2 || (approveComment now siteID id acc.1).2))
      (w.comments, false)).1 }
  exact h
end Fyndmark

namespace Fyndmark

/-- Witness for the amended C9 theorem: a batch that flips a pending
comment appends exactly one run row with the fresh id. -/
theorem c9_batch_run_iff_changed_witness :
    (moderateBatchApprove 5 7 [strBytes "01ABC"] c3World).2.1 = true ∧
    (moderateBatchApprove 5 7 [strBytes "01ABC"] c3World).1.runs.rows.map Prod.fst =
      c3World.runs.rows.map Prod.fst ++ [c3World.runs.nextID] :=
  ⟨by decide,
    (c9_batch_run_iff_changed 5 7 [strBytes "01ABC"] c3World).2
      { stopped := false, queueLen := 32, capacity := 32 } (by decide) rfl⟩

end Fyndmark

namespace Fyndmark

/-! ## Clone URL resolution (src/unnamed/part_017, gitcli package)

Both pipeline call sites funnel through gitcli.Clone with the configured
values: CheckoutWithContext (src/pkg/git/checkout.go) passes the trimmed
site repo url and token, ensureThemes (src/unnamed/part_016) the trimmed
theme repo url and token; trimming is idempotent, so gitcli.Clone on the
raw configured value computes the same URL. -/

def httpsPrefix : Str := strBytes "https://"

/-- strings.HasPrefix over byte lists. -/
def hasPrefixBytes : Str → Str → Bool
  | _, [] => true
  | [], _ :: _ => false
  | c :: cs, p :: ps => c == p && hasPrefixBytes cs ps

/-- strings.TrimPrefix over byte lists. -/
def goTrimPrefixBytes (s pre : Str) : Str :=
  if hasPrefixBytes s pre then s.drop pre.length else s

/-- buildHTTPSURLWithToken (part_017 lines 160-174): trim the url, accept
only https URLs, pass the url through unchanged when the trimmed token is
empty, and otherwise splice "x-access-token:" and the token (as given)
followed by an at sign (byte 64) after the scheme. -/
def buildHTTPSURLWithToken (repoURL token : Str) : Except Str Str :=
  let u := goTrimSpace repoURL
  if hasPrefixBytes u httpsPrefix then
    if goTrimSpace token = [] then .ok u
    else
      .ok (httpsPrefix ++ strBytes "x-access-token:" ++ token ++ [64] ++
        goTrimPrefixBytes u httpsPrefix)
  else .error (strBytes "only https repo URLs are supported for token auth")

/-- The argument checks and URL resolution of gitcli.Clone (part_017 lines
26-40): empty repo url and target dir are refused, then the clone URL is
built; the subprocess invocation itself is outside the model. -/
def gitcliCloneURL (repoURL targetDir accessToken : Str) : Except Str Str :=
  if goTrimSpace repoURL = [] then .error (strBytes "repo url is empty")
  else if goTrimSpace targetDir = [] then .error (strBytes "target dir is empty")
  else buildHTTPSURLWithToken repoURL accessToken

/-- The https prefix test succeeds on any extension of the prefix. -/
theorem hasPrefixBytes_append (pre rest : Str) : hasPrefixBytes (pre ++ rest) pre = true := by
  induction pre with
  | nil => simp [hasPrefixBytes]
  | cons c cs ih => simp [hasPrefixBytes, ih]

/-- C10 counterexample: the configured repo url " https://h/r" does not
start with "https://" (it starts with a space), yet the pipeline's clone
does not return an error even without a token: gitcli.Clone trims the url
before the scheme check and resolves it successfully. -/
theorem c10_whitespace_url_still_clones :
    hasPrefixBytes (strBytes " https://h/r") httpsPrefix = false ∧
    gitcliCloneURL (strBytes " https://h/r") (strBytes "dir") (strBytes "") =
      .ok (strBytes "https://h/r") := by
  decide

/-- C10 amended: for every clone performed by the pipeline, when the
whitespace-trimmed repo url does not start with "https://" the clone
returns an error whatever the token is (including no token), and when it
does, the URL used for cloning is the trimmed url with
"https://x-access-token:token@" substituted for "https://" whenever the
trimmed token is non-empty, and the trimmed url itself otherwise. -/
theorem c10_clone_url_resolution (repoURL targetDir token : Str)
    (htd : goTrimSpace targetDir ≠ []) :
    (hasPrefixBytes (goTrimSpace repoURL) httpsPrefix = false →
      ∃ e, gitcliCloneURL repoURL targetDir token = .error e) ∧
    (∀ rest, goTrimSpace repoURL = httpsPrefix ++ rest →
      (goTrimSpace token = [] →
        gitcliCloneURL repoURL targetDir token = .ok (httpsPrefix ++ rest)) ∧
      (goTrimSpace token ≠ [] →
        gitcliCloneURL repoURL targetDir token =
          .ok (httpsPrefix ++ strBytes "x-access-token:" ++ token ++ [64] ++ rest))) := by
  constructor
  · intro h
    unfold gitcliCloneURL
    by_cases hre : goTrimSpace repoURL = []
    · exact ⟨strBytes "repo url is empty", by rw [if_pos hre]⟩
    · rw [if_neg hre, if_neg htd]
      unfold buildHTTPSURLWithToken
      dsimp only
      rw [h]
      exact ⟨strBytes "only https repo URLs are supported for token auth",
        if_neg Bool.false_ne_true⟩
  · intro rest hu
    have hre : ¬ (goTrimSpace repoURL = []) := by
      rw [hu]
      simp [httpsPrefix, strBytes]
    have hpre : hasPrefixBytes (goTrimSpace repoURL) httpsPrefix = true := by
      rw [hu]
      exact hasPrefixBytes_append httpsPrefix rest
    have hdrop : goTrimPrefixBytes (goTrimSpace repoURL) httpsPrefix = rest := by
      unfold goTrimPrefixBytes
      rw [if_pos hpre, hu, List.drop_left]
    constructor
    · intro htk
      unfold gitcliCloneURL
      rw [if_neg hre, if_neg htd]
      unfold buildHTTPSURLWithToken
      rw [if_pos hpre, if_pos htk, hu]
    · intro htk
      unfold gitcliCloneURL
      rw [if_neg hre, if_neg htd]
      unfold buildHTTPSURLWithToken
      rw [if_pos hpre, if_neg htk, hdrop]

/-- Witness for the amended C10 theorem at a concrete tokened clone. -/
theorem c10_clone_url_resolution_witness :
    goTrimSpace (strBytes "tok") ≠ [] ∧
    gitcliCloneURL (strBytes "https://h/r.git") (strBytes "dir") (strBytes "tok") =
      .ok (httpsPrefix ++ strBytes "x-access-token:" ++ strBytes "tok" ++ [64] ++
        strBytes "h/r.git") :=
  ⟨by decide,
    ((c10_clone_url_resolution (strBytes "https://h/r.git") (strBytes "dir")
        (strBytes "tok") (by decide)).2 (strBytes "h/r.git") (by decide)).2 (by decide)⟩

end Fyndmark

namespace Fyndmark

/-! ## Comment markdown generation (src/unnamed/part_011)

renderCommentMarkdown and the per-comment part of GenerateWithContext.
Strings are byte lists; strconv-style %q quoting is modelled for byte
content (printable ASCII kept, quote and backslash escaped, the usual
control escapes, hex escapes otherwise), matching Go's strconv.Quote on
the ASCII domain used here. Local-time formatting (time.Time.Format) is
abstracted: the RFC3339 date string and the local day key enter as
parameters derived from created_at. -/

structure GenComment where
  id : Str
  postPath : Str
  parentID : Option Str
  author : Str
  authorUrl : Option Str
  body : Str
  createdAt : Nat
deriving DecidableEq

def hexDigit (n : Nat) : Nat := if n < 10 then 48 + n else 87 + n

/-- Quoting of one byte inside a %q verb (strconv.Quote). -/
def goQuoteByte (b : Nat) : Str :=
  if b == 34 then [92, 34]
  else if b == 92 then [92, 92]
  else if 32 ≤ b && b ≤ 126 then [b]
  else if b == 7 then [92, 97]
  else if b == 8 then [92, 98]
  else if b == 9 then [92, 116]
  else if b == 10 then [92, 110]
  else if b == 11 then [92, 118]
  else if b == 12 then [92, 102]
  else if b == 13 then [92, 114]
  else [92, 120, hexDigit (b / 16), hexDigit (b % 16)]

/-- fmt %q: a double-quoted, escaped rendering of the string. -/
def goQuote (s : Str) : Str := [34] ++ (s.map goQuoteByte).flatten ++ [34]

/-- strings.ReplaceAll(body, CRLF, LF): left-to-right, non-overlapping. -/
def replaceCRLF : Str → Str
  | [] => []
  | 13 :: 10 :: rest => 10 :: replaceCRLF rest
  | c :: rest => c :: replaceCRLF rest

/-- strings.TrimRight(s, LF): drop every trailing newline byte. -/
def trimRightNewlines (s : Str) : Str :=
  (s.reverse.dropWhile (fun c => c == 10)).reverse

/-- Lines 187-188 of part_011: normalize newlines, then ensure exactly
one trailing newline. -/
def normalizeBody (body : Str) : Str :=
  trimRightNewlines (replaceCRLF body) ++ [10]

/-- renderCommentMarkdown (part_011 lines 181-200): the Sprintf template
with author_name, reply_to and status trimmed, author_url hardcoded to
the empty quoted string, and the body normalized. -/
def renderCommentMarkdown (commentID date authorName replyTo status body : Str) : Str :=
  strBytes "---\ncomment_id: " ++ goQuote commentID ++
  strBytes "\ndate: " ++ date ++
  strBytes "\nauthor_name: " ++ goQuote (goTrimSpace authorName) ++
  strBytes "\nauthor_url: \"\"\nstatus: " ++ goQuote (goTrimSpace status) ++
  strBytes "\nreply_to: " ++ goQuote (goTrimSpace replyTo) ++
  strBytes "\n---\n\n" ++ normalizeBody body

/-- reply_to value (part_011 lines 130-133): the trimmed parent id when
present, the empty string otherwise. -/
def replyToOf (c : GenComment) : Str :=
  match c.parentID with
  | some p => goTrimSpace p
  | none => []

/-- The file content written for one approved comment (part_011 lines
135-142): renderCommentMarkdown on (id, local date, author, reply_to,
"approved", body). The comment's authorUrl is never passed. -/
def generatedFileContent (c : GenComment) (date : Str) : Str :=
  renderCommentMarkdown c.id date c.author (replyToOf c) (strBytes "approved") c.body

/-- strings.Contains over byte lists. -/
def bytesContains : Str → Str → Bool
  | [], sub => sub.isEmpty
  | c :: rest, sub => hasPrefixBytes (c :: rest) sub || bytesContains rest sub

/-- One frontmatter line, as the spec describes the fields. -/
def yamlLine (field value : Str) : Str := field ++ strBytes ": " ++ value ++ [10]

/-- The file layout in the spec's words: frontmatter fields comment_id,
date, author_name, author_url, status "approved", reply_to between ---
fences, a blank line, then the normalized body — with the author_url
value always the empty quoted string. -/
def specCommentFileContent (c : GenComment) (date : Str) : Str :=
  strBytes "---\n" ++
  yamlLine (strBytes "comment_id") (goQuote c.id) ++
  yamlLine (strBytes "date") date ++
  yamlLine (strBytes "author_name") (goQuote (goTrimSpace c.author)) ++
  yamlLine (strBytes "author_url") (strBytes "\"\"") ++
  yamlLine (strBytes "status") (strBytes "\"approved\"") ++
  yamlLine (strBytes "reply_to") (goQuote (replyToOf c)) ++
  strBytes "---\n" ++ [10] ++
  normalizeBody c.body

/-- Heads surviving dropWhile fail the predicate. -/
theorem head_dropWhile_false (p : Nat → Bool) :
    ∀ (l : Str) (a : Nat), (l.dropWhile p).head? = some a → p a = false := by
  intro l
  induction l with
  | nil => intro a h; simp [List.dropWhile] at h
  | cons c cs ih =>
    intro a h
    by_cases hc : p c
    · rw [List.dropWhile_cons, if_pos hc] at h
      exact ih a h
    · rw [List.dropWhile_cons, if_neg hc] at h
      rw [List.head?_cons] at h
      cases h
      exact Bool.eq_false_iff.mpr hc

/-- dropWhile is the identity when the head already fails the predicate. -/
theorem dropWhile_eq_self (p : Nat → Bool) (l : Str)
    (h : ∀ a, l.head? = some a → p a = false) : l.dropWhile p = l := by
  cases l with
  | nil => rfl
  | cons c cs =>
    rw [List.dropWhile_cons, if_neg]
    simp [h c (by rw [List.head?_cons])]

/-- dropWhile keeps the last element when it returns anything. -/
theorem getLast?_dropWhile (p : Nat → Bool) :
    ∀ l : Str, l.dropWhile p = [] ∨ (l.dropWhile p).getLast? = l.getLast? := by
  intro l
  induction l with
  | nil => left; rfl
  | cons c cs ih =>
    by_cases hc : p c
    · cases hcs : cs.dropWhile p with
      | nil => left; rw [List.dropWhile_cons, if_pos hc, hcs]
      | cons d ds =>
        right
        rw [List.dropWhile_cons, if_pos hc]
        rcases ih with h | h
        · rw [hcs] at h; cases h
        · rw [h]
          cases cs with
          | nil => simp [List.dropWhile] at hcs
          | cons e es => rw [List.getLast?_cons_cons]
    · right; rw [List.dropWhile_cons, if_neg (by simp [hc])]

/-- A trimmed string does not start with a space. -/
theorem goTrimSpace_head (s : Str) :
    ∀ a, (goTrimSpace s).head? = some a → isGoSpace a = false := by
  intro a h
  unfold goTrimSpace at h
  rw [List.head?_reverse] at h
  rcases getLast?_dropWhile isGoSpace (s.dropWhile isGoSpace).reverse with hd | hd
  · rw [hd] at h; cases h
  · rw [hd, List.getLast?_reverse] at h
    exact head_dropWhile_false isGoSpace s a h

/-- A trimmed string does not end with a space. -/
theorem goTrimSpace_getLast (s : Str) :
    ∀ a, (goTrimSpace s).getLast? = some a → isGoSpace a = false := by
  intro a h
  unfold goTrimSpace at h
  rw [List.getLast?_reverse] at h
  exact head_dropWhile_false isGoSpace _ a h

/-- Trimming is idempotent. -/
theorem goTrimSpace_idem (s : Str) : goTrimSpace (goTrimSpace s) = goTrimSpace s := by
  conv_lhs => rw [goTrimSpace]
  rw [dropWhile_eq_self isGoSpace (goTrimSpace s) (goTrimSpace_head s)]
  rw [dropWhile_eq_self isGoSpace (goTrimSpace s).reverse
    (fun a ha => goTrimSpace_getLast s a (by rwa [List.head?_reverse] at ha))]
  exact List.reverse_reverse _

/-- The reply_to value is already trimmed. -/
theorem goTrimSpace_replyToOf (c : GenComment) : goTrimSpace (replyToOf c) = replyToOf c := by
  unfold replyToOf
  cases c.parentID with
  | none => rfl
  | some p => exact goTrimSpace_idem p

/-- Appending one byte makes it the last. -/
theorem getLast?_append_singleton (l : Str) (a : Nat) : (l ++ [a]).getLast? = some a := by
  induction l with
  | nil => rfl
  | cons c cs ih =>
    cases cs with
    | nil => rfl
    | cons d ds =>
      rw [List.cons_append, List.cons_append, List.getLast?_cons_cons, ← List.cons_append]
      exact ih

end Fyndmark

namespace Fyndmark

set_option maxRecDepth 8000 in
/-- C6 counterexample: a comment whose author URL is present renders to a
file whose frontmatter says author_url: "" and which does not contain the
URL anywhere: renderCommentMarkdown hardcodes the empty author_url and
GenerateWithContext never passes the comment's AuthorUrl to it. -/
theorem c6_author_url_dropped :
    (let c : GenComment :=
      { id := strBytes "01X", postPath := strBytes "posts/a", parentID := none,
        author := strBytes "Ann", authorUrl := some (strBytes "https://me.example"),
        body := strBytes "hi", createdAt := 0 }
     let content := generatedFileContent c (strBytes "2024-05-01T10:00:00+02:00")
     c.authorUrl.isSome = true ∧
     bytesContains content (strBytes "author_url: \"\"") = true ∧
     bytesContains content (strBytes "me.example") = false) := by
  decide

/-- C6 amended: every generated comment file is exactly the frontmatter
comment_id, date, author_name, author_url, status, reply_to between ---
fences, a blank line and the normalized body, where the author_url value
is ALWAYS the empty quoted string (the comment's author URL, present or
not, does not influence the output), and the body has CRLF normalized to
LF and exactly one trailing newline (it ends in a newline byte that does
not follow another newline byte). -/
theorem c6_comment_file_format (c : GenComment) (date : Str) :
    generatedFileContent c date = specCommentFileContent c date ∧
    (∀ url, generatedFileContent { c with authorUrl := some url } date =
      generatedFileContent { c with authorUrl := none } date) ∧
    (normalizeBody c.body).getLast? = some 10 ∧
    (∀ a, (trimRightNewlines (replaceCRLF c.body)).getLast? = some a → a ≠ 10) := by
  refine ⟨?_, fun url => rfl, ?_, ?_⟩
  · have hst : goQuote (goTrimSpace (strBytes "approved")) = strBytes "\"approved\"" := by
      decide
    have hrt : goTrimSpace (replyToOf c) = replyToOf c := goTrimSpace_replyToOf c
    have h1 : strBytes "---\ncomment_id: " =
        strBytes "---\n" ++ strBytes "comment_id" ++ strBytes ": " := by decide
    have h2 : strBytes "\ndate: " = [10] ++ strBytes "date" ++ strBytes ": " := by decide
    have h3 : strBytes "\nauthor_name: " =
        [10] ++ strBytes "author_name" ++ strBytes ": " := by decide
    have h4 : strBytes "\nauthor_url: \"\"\nstatus: " =
        [10] ++ strBytes "author_url" ++ strBytes ": " ++ strBytes "\"\"" ++ [10] ++
          strBytes "status" ++ strBytes ": " := by decide
    have h5 : strBytes "\nreply_to: " = [10] ++ strBytes "reply_to" ++ strBytes ": " := by
      decide
    have h6 : strBytes "\n---\n\n" = [10] ++ strBytes "---\n" ++ [10] := by decide
    unfold generatedFileContent renderCommentMarkdown specCommentFileContent yamlLine
    rw [hst, hrt, h1, h2, h3, h4, h5, h6]
    simp only [List.append_assoc]
  · exact getLast?_append_singleton _ 10
  · intro a h
    unfold trimRightNewlines at h
    rw [List.getLast?_reverse] at h
    have := head_dropWhile_false (fun c => c == 10) _ a h
    simp at this
    exact this

/-- Witness for the C6 theorem at a concrete comment with a CRLF body. -/
theorem c6_comment_file_format_witness :
    generatedFileContent
        { id := strBytes "01Y", postPath := strBytes "posts/b", parentID := some (strBytes "01X"),
          author := strBytes " Bo ", authorUrl := none,
          body := strBytes "a\r\nb\n\n", createdAt := 3 }
        (strBytes "2024-05-02T09:00:00+02:00") =
      specCommentFileContent
        { id := strBytes "01Y", postPath := strBytes "posts/b", parentID := some (strBytes "01X"),
          author := strBytes " Bo ", authorUrl := none,
          body := strBytes "a\r\nb\n\n", createdAt := 3 }
        (strBytes "2024-05-02T09:00:00+02:00") ∧
    (normalizeBody (strBytes "a\r\nb\n\n")).getLast? = some 10 :=
  ⟨(c6_comment_file_format _ _).1, (c6_comment_file_format
    { id := strBytes "01Y", postPath := strBytes "posts/b", parentID := some (strBytes "01X"),
      author := strBytes " Bo ", authorUrl := none,
      body := strBytes "a\r\nb\n\n", createdAt := 3 }
    (strBytes "2024-05-02T09:00:00+02:00")).2.2.1⟩

end Fyndmark

namespace Fyndmark

/-! ## Generate step: ordering and filename counters (part_011 lines 87-147)

sort.SliceStable with the source's less function is modelled by stable
insertion sort: an element is inserted before the first resident that is
not strictly less than it, which preserves the original order of equals
exactly as SliceStable does. Go string comparison is lexicographic over
bytes. The per-day counter map is an association list. -/

/-- Go string less-than: lexicographic byte order. -/
def lexLt : Str → Str → Bool
  | [], [] => false
  | [], _ :: _ => true
  | _ :: _, [] => false
  | a :: as, b :: bs => if a < b then true else if b < a then false else lexLt as bs

/-- The less function of the sort at part_011 lines 91-96: by created_at,
ties by id. -/
def commentLess (x y : GenComment) : Bool :=
  if x.createdAt = y.createdAt then lexLt x.id y.id else decide (x.createdAt < y.createdAt)

/-- The sorted-position relation of the stable sort: x may precede y when
y is not strictly less than x. -/
def commentLE (x y : GenComment) : Prop := commentLess y x = false

instance : DecidableRel commentLE := fun x y => Bool.decEq (commentLess y x) false

theorem lexLt_irrefl : ∀ a : Str, lexLt a a = false := by
  intro a
  induction a with
  | nil => rfl
  | cons c cs ih => simp [lexLt, ih]

theorem lexLt_asymm : ∀ a b : Str, lexLt a b = true → lexLt b a = false := by
  intro a
  induction a with
  | nil =>
    intro b h
    cases b with
    | nil => simp [lexLt] at h
    | cons hb tb => rfl
  | cons ha ta ih =>
    intro b h
    cases b with
    | nil => simp [lexLt] at h
    | cons hb tb =>
      rcases Nat.lt_trichotomy ha hb with h1 | h1 | h1
      · simp [lexLt, Nat.lt_asymm h1, h1]
      · subst h1
        have h' : lexLt ta tb = true := by simpa [lexLt, Nat.lt_irrefl] using h
        simp [lexLt, Nat.lt_irrefl, ih tb h']
      · exfalso
        simp [lexLt, Nat.lt_asymm h1, h1] at h

theorem lexLt_cotrans : ∀ a b c : Str, lexLt a c = true → lexLt a b = true ∨ lexLt b c = true := by
  intro a
  induction a with
  | nil =>
    intro b c h
    cases b with
    | nil => right; exact h
    | cons hb tb => left; rfl
  | cons ha ta ih =>
    intro b c h
    cases c with
    | nil => simp [lexLt] at h
    | cons hc tc =>
      cases b with
      | nil => right; rfl
      | cons hb tb =>
        rcases Nat.lt_trichotomy ha hb with h1 | h1 | h1
        · left; simp [lexLt, h1]
        · subst h1
          rcases Nat.lt_trichotomy ha hc with h2 | h2 | h2
          · right; simp [lexLt, h2]
          · subst h2
            have h' : lexLt ta tc = true := by simpa [lexLt, Nat.lt_irrefl] using h
            rcases ih tb tc h' with h3 | h3
            · left; simp [lexLt, Nat.lt_irrefl, h3]
            · right; simp [lexLt, Nat.lt_irrefl, h3]
          · exfalso; simp [lexLt, Nat.lt_asymm h2, h2] at h
        · right
          rcases Nat.lt_trichotomy ha hc with h2 | h2 | h2
          · simp [lexLt, Nat.lt_trans h1, h2, Nat.lt_trans h1 h2]
          · subst h2; simp [lexLt, h1]
          · exfalso; simp [lexLt, Nat.lt_asymm h2, h2] at h

theorem commentLess_asymm (x y : GenComment) (h : commentLess x y = true) :
    commentLess y x = false := by
  unfold commentLess at h ⊢
  by_cases he : x.createdAt = y.createdAt
  · rw [if_pos he] at h
    rw [if_pos he.symm]
    exact lexLt_asymm _ _ h
  · rw [if_neg he] at h
    have hlt : x.createdAt < y.createdAt := of_decide_eq_true h
    rw [if_neg (fun hh => he hh.symm)]
    simp [Nat.lt_asymm hlt]

theorem commentLess_cotrans (x y z : GenComment) (h : commentLess x z = true) :
    commentLess x y = true ∨ commentLess y z = true := by
  unfold commentLess at h ⊢
  by_cases hxz : x.createdAt = z.createdAt
  · rw [if_pos hxz] at h
    by_cases hxy : x.createdAt = y.createdAt
    · have hyz : y.createdAt = z.createdAt := hxy.symm.trans hxz
      rcases lexLt_cotrans x.id y.id z.id h with h1 | h1
      · left; rw [if_pos hxy]; exact h1
      · right; rw [if_pos hyz]; exact h1
    · rcases Nat.lt_or_ge x.createdAt y.createdAt with h1 | h1
      · left; rw [if_neg hxy]; simp [h1]
      · right
        have hyz : y.createdAt < z.createdAt := by omega
        rw [if_neg (Nat.ne_of_lt hyz)]
        simp [hyz]
  · rw [if_neg hxz] at h
    have hlt : x.createdAt < z.createdAt := of_decide_eq_true h
    by_cases hxy : x.createdAt = y.createdAt
    · right
      have hyz : y.createdAt < z.createdAt := by omega
      rw [if_neg (Nat.ne_of_lt hyz)]
      simp [hyz]
    · rcases Nat.lt_or_ge x.createdAt y.createdAt with h1 | h1
      · left; rw [if_neg hxy]; simp [h1]
      · right
        have hyz : y.createdAt < z.createdAt := by omega
        rw [if_neg (Nat.ne_of_lt hyz)]
        simp [hyz]

instance : IsTotal GenComment commentLE :=
  ⟨fun x y => by
    by_cases h : commentLess y x = true
    · exact Or.inr (commentLess_asymm y x h)
    · exact Or.inl (Bool.eq_false_iff.mpr h)⟩

instance : IsTrans GenComment commentLE :=
  ⟨fun x y z hxy hyz => by
    have hxy' : commentLess y x = false := hxy
    have hyz' : commentLess z y = false := hyz
    show commentLess z x = false
    cases hb : commentLess z x
    · rfl
    · rcases commentLess_cotrans z y x hb with h | h
      · rw [hyz'] at h; exact absurd h Bool.false_ne_true
      · rw [hxy'] at h; exact absurd h Bool.false_ne_true⟩

/-- sort.SliceStable at part_011 lines 91-96, as stable insertion sort. -/
def sortComments (cs : List GenComment) : List GenComment :=
  List.insertionSort commentLE cs

/-- Day-counter map read: absent keys count zero (Go zero value). -/
def lookupCount : List (Str × Nat) → Str → Nat
  | [], _ => 0
  | (k, v) :: rest, day => if k = day then v else lookupCount rest day

/-- Day-counter map write. -/
def setCount : List (Str × Nat) → Str → Nat → List (Str × Nat)
  | [], day, n => [(day, n)]
  | (k, v) :: rest, day, n =>
    if k = day then (day, n) :: rest else (k, v) :: setCount rest day n

theorem lookupCount_setCount (m : List (Str × Nat)) (day : Str) (n : Nat) :
    lookupCount (setCount m day n) day = n := by
  induction m with
  | nil => simp [setCount, lookupCount]
  | cons kv rest ih =>
    obtain ⟨k, v⟩ := kv
    by_cases hk : k = day
    · simp [setCount, lookupCount, hk]
    · simp [setCount, lookupCount, hk, ih]

/-- fmt %03d: zero-padded to three digits, full decimal beyond that. -/
def pad3 (n : Nat) : Str :=
  if n < 10 then [48, 48, 48 + n]
  else if n < 100 then [48, 48 + n / 10, 48 + n % 10]
  else natToDecBytes n

inductive GenErr where
  | tooMany (day postPath : Str)
deriving DecidableEq

structure FileWrite where
  filename : Str
  commentID : Str
  content : Str
deriving DecidableEq

/-- The per-comment loop of GenerateWithContext (lines 118-147) for one
bundle: bump the day counter, fail past 999 with the error naming the day
and post path, otherwise emit the file day-NNN.md. -/
def genLoop (pp : Str) (dayOf dateOf : Nat → Str) :
    List GenComment → List (Str × Nat) → Except GenErr (List FileWrite)
  | [], _ => .ok []
  | c :: rest, m =>
    let day := dayOf c.createdAt
    let n := lookupCount m day + 1
    if 999 < n then .error (.tooMany day pp)
    else
      match genLoop pp dayOf dateOf rest (setCount m day n) with
      | .error e => .error e
      | .ok ws =>
        .ok ({ filename := day ++ [45] ++ pad3 n ++ strBytes ".md",
               commentID := c.id,
               content := generatedFileContent c (dateOf c.createdAt) } :: ws)

/-- One bundle of GenerateWithContext (lines 87-147): stable-sort the
group, then run the counter loop with fresh counters. -/
def generateBundle (pp : Str) (dayOf dateOf : Nat → Str) (cs : List GenComment) :
    Except GenErr (List FileWrite) :=
  genLoop pp dayOf dateOf (sortComments cs) []

end Fyndmark

namespace Fyndmark

/-- Counter loop invariant for a single-day group: starting from counter
value k ≤ 999, a group fitting under 999 yields files numbered k+1, k+2,
... in list order, and a group pushing past 999 yields the error naming
the day. -/
theorem genLoop_single_day (pp day : Str) (dayOf dateOf : Nat → Str) :
    ∀ (l : List GenComment) (m : List (Str × Nat)) (k : Nat),
      (∀ c ∈ l, dayOf c.createdAt = day) → lookupCount m day = k → k ≤ 999 →
      ((k + l.length ≤ 999 →
        ∃ ws, genLoop pp dayOf dateOf l m = .ok ws ∧
          ws.map FileWrite.filename =
            (List.range l.length).map
              (fun i => day ++ [45] ++ pad3 (k + i + 1) ++ strBytes ".md") ∧
          ws.map FileWrite.commentID = l.map GenComment.id) ∧
      (999 < k + l.length →
        genLoop pp dayOf dateOf l m = .error (.tooMany day pp))) := by
  intro l
  induction l with
  | nil =>
    intro m k hday hm hk9
    constructor
    · intro h
      exact ⟨[], rfl, rfl, rfl⟩
    · intro h
      exfalso
      simp only [List.length_nil] at h
      omega
  | cons c rest ih =>
    intro m k hday hm hk9
    have hd : dayOf c.createdAt = day := hday c (List.mem_cons_self c rest)
    have hdt : ∀ x ∈ rest, dayOf x.createdAt = day :=
      fun x hx => hday x (List.mem_cons_of_mem c hx)
    by_cases hk : 999 < k + 1
    · constructor
      · intro h
        exfalso
        simp only [List.length_cons] at h
        omega
      · intro h
        simp only [genLoop]
        rw [hd, hm, if_pos hk]
    · have hm' : lookupCount (setCount m day (k + 1)) day = k + 1 :=
        lookupCount_setCount m day (k + 1)
      have IH := ih (setCount m day (k + 1)) (k + 1) hdt hm' (by omega)
      constructor
      · intro h
        simp only [List.length_cons] at h
        obtain ⟨ws', hrec, hf', hid'⟩ := IH.1 (by omega)
        refine ⟨{ filename := day ++ [45] ++ pad3 (k + 1) ++ strBytes ".md",
                  commentID := c.id,
                  content := generatedFileContent c (dateOf c.createdAt) } :: ws',
          ?_, ?_, ?_⟩
        · simp only [genLoop]
          rw [hd, hm, if_neg hk, hrec]
        · simp only [List.map_cons, hf', List.length_cons, List.range_succ_eq_map,
            List.map_map, Function.comp]
          simp only [show ∀ i : Nat, k + Nat.succ i + 1 = k + 1 + i + 1 from fun i => by omega,
            Nat.add_zero]
          simp only [Function.comp_def, Nat.succ_eq_add_one]
          simp only [show ∀ i : Nat, k + (i + 1) + 1 = k + 1 + i + 1 from fun i => by omega]
        · simp only [List.map_cons, hid']
      · intro h
        simp only [List.length_cons] at h
        have herr := IH.2 (by omega)
        simp only [genLoop]
        rw [hd, hm, if_neg hk, herr]

end Fyndmark

namespace Fyndmark

/-- C5: for a single (post_path, local_day) group of at most 999 approved
comments, the generate step succeeds and the filenames are exactly the
contiguous zero-padded sequence day-001.md .. day-KKK.md, assigned in the
stable (created_at, id) sort order of the comments; past 999 comments on
the day, the step fails with the error naming that day. -/
theorem c5_filename_counter (pp day : Str) (dayOf dateOf : Nat → Str)
    (cs : List GenComment) (hday : ∀ c ∈ cs, dayOf c.createdAt = day) :
    (cs.length ≤ 999 →
      ∃ ws, generateBundle pp dayOf dateOf cs = .ok ws ∧
        ws.map FileWrite.filename =
          (List.range cs.length).map
            (fun i => day ++ [45] ++ pad3 (i + 1) ++ strBytes ".md") ∧
        ws.map FileWrite.commentID = (sortComments cs).map GenComment.id ∧
        List.Perm (sortComments cs) cs ∧
        List.Sorted commentLE (sortComments cs)) ∧
    (999 < cs.length →
      generateBundle pp dayOf dateOf cs = .error (.tooMany day pp)) := by
  have hperm : List.Perm (sortComments cs) cs := List.perm_insertionSort commentLE cs
  have hsort : List.Sorted commentLE (sortComments cs) :=
    List.sorted_insertionSort commentLE cs
  have hlen : (sortComments cs).length = cs.length := hperm.length_eq
  have hday' : ∀ c ∈ sortComments cs, dayOf c.createdAt = day :=
    fun c hc => hday c (hperm.mem_iff.mp hc)
  have main := genLoop_single_day pp day dayOf dateOf (sortComments cs) [] 0 hday' rfl
    (by omega)
  constructor
  · intro h999
    obtain ⟨ws, hws, hf, hid⟩ := main.1 (by rw [hlen]; omega)
    refine ⟨ws, hws, ?_, hid, hperm, hsort⟩
    rw [hf, hlen]
    simp only [Nat.zero_add]
  · intro h
    exact main.2 (by rw [hlen]; omega)

def c5SampleA : GenComment :=
  { id := strBytes "01B", postPath := strBytes "posts/a", parentID := none,
    author := strBytes "A", authorUrl := none, body := strBytes "x", createdAt := 10 }

def c5SampleB : GenComment :=
  { id := strBytes "01A", postPath := strBytes "posts/a", parentID := none,
    author := strBytes "B", authorUrl := none, body := strBytes "y", createdAt := 5 }

set_option maxRecDepth 4000 in
/-- Witness for C5 at a two-comment group on one day. -/
theorem c5_filename_counter_witness :
    ([c5SampleA, c5SampleB] : List GenComment).length ≤ 999 ∧
    ∃ ws, generateBundle (strBytes "posts/a") (fun _ => strBytes "2024-05-01")
        (fun _ => strBytes "2024-05-01T00:00:00Z") [c5SampleA, c5SampleB] = .ok ws ∧
      ws.map FileWrite.filename =
        (List.range ([c5SampleA, c5SampleB] : List GenComment).length).map
          (fun i => strBytes "2024-05-01" ++ [45] ++ pad3 (i + 1) ++ strBytes ".md") ∧
      ws.map FileWrite.commentID =
        (sortComments [c5SampleA, c5SampleB]).map GenComment.id ∧
      List.Perm (sortComments [c5SampleA, c5SampleB]) [c5SampleA, c5SampleB] ∧
      List.Sorted commentLE (sortComments [c5SampleA, c5SampleB]) :=
  ⟨by decide,
    (c5_filename_counter (strBytes "posts/a") (strBytes "2024-05-01")
      (fun _ => strBytes "2024-05-01") (fun _ => strBytes "2024-05-01T00:00:00Z")
      [c5SampleA, c5SampleB] (by decide)).1 (by decide)⟩

end Fyndmark
